import Mathlib

/-!
Verification of the english-tg-bot conversational state machine and
learning-session engine.

The development shallowly embeds the final-version sources:
`controller/learning.py`, `controller/add_card.py`, `controller/main_menu.py`,
`controller/state_manager.py`, `controller/card_manager.py`,
`controller/__init__.py` and `model/db.py`.

Modelling conventions:
* The per-user view of the store (the only view the state machine reads and
  writes) is `EnglishBot.Store`; a SQLAlchemy session is `LSession`, a pair of
  the committed store and the current (uncommitted) store.  `Session.commit`
  publishes the current store; closing a session without committing discards
  the uncommitted changes, which is what `with model.create_session()` does at
  the end of a turn in `Controller.respond_user`.
* Words and cards are deduplicated by text, so a card is faithfully identified
  by its pair of texts; the relational word/card/user tables needed for the
  deduplication and bootstrap claims are embedded separately in the `Rel`
  namespace, mirroring `DatabaseModel.add_word` / `add_card` /
  `Controller._preprocess_user`.
* Randomness (card shuffling, distractor draws, answer positions) is an
  explicit oracle argument; `get_random_cards` becomes a permutation of the
  user's cards, `get_random_card` a stream of optional cards.
* The unbounded `while` loop in `LearningState._get_distractors_for_card`
  consumes a finite prefix of the draw stream and returns `none` when the
  prefix is exhausted before the choice dictionary is full.
-/

set_option linter.all false

namespace EnglishBot

/-- `LearningQuestion.CHOICE_COUNT`: number of choices given to a user. -/
def choiceCount : Nat := 4

/-- `BaseWord.MAX_LENGTH`: maximum allowed word length. -/
def maxWordLength : Nat := 64

/-- Python whitespace as stripped by `str.strip()` (core set). -/
def isPySpace (c : Char) : Bool :=
  c = ' ' || c = '\t' || c = '\n' || c = '\r' || c = '\x0b' || c = '\x0c'

/-- Python `str.strip()`: drop leading and trailing whitespace. -/
def pyStrip (s : String) : String :=
  ⟨((s.data.dropWhile isPySpace).reverse.dropWhile isPySpace).reverse⟩

/-- Python `str.lower` on one character, for the alphabets the bot uses:
ASCII letters, and Cyrillic А..Я and Ё. -/
def pyCharLower (c : Char) : Char :=
  if 0x410 ≤ c.toNat ∧ c.toNat ≤ 0x42F then Char.ofNat (c.toNat + 0x20)
  else if c.toNat = 0x401 then Char.ofNat 0x451
  else c.toLower

/-- Python `str.lower` (character-wise). -/
def pyLower (s : String) : String := ⟨s.data.map pyCharLower⟩

/-- `CardManager.preprocess_user_word`: strip, reject overlong input
(`none` models the raised `WordTooLongError`, a `ValueError`), lowercase. -/
def preprocessUserWord (text : String) : Option String :=
  let t := pyStrip text
  if t.length > maxWordLength then none else some (pyLower t)

/-- `LearningState._preprocess_word`: like `preprocess_user_word`, but on
`WordTooLongError` the raw input is returned, because it is used only for
matching. -/
def preprocessWordMatch (text : String) : String :=
  match preprocessUserWord text with
  | some r => r
  | none => text

/-! ### Menu labels and message texts (`messages.py`) -/

/-- `MainMenu.LEARN`. -/
def learnLabel : String := "📖 Учиться"

/-- `MainMenu.ADD_CARD`. -/
def addCardLabel : String := "✍🏻 Добавить новое слово"

/-- `LearningMenu.SKIP`. -/
def skipLabel : String := "⏩ Пропустить слово"

/-- `LearningMenu.DELETE`. -/
def deleteLabel : String := "❌ Удалить слово"

/-- `LearningMenu.FINISH`. -/
def finishLabel : String := "🏁 Завершить"

/-- `Messages.SELECT_MAIN_MENU`. -/
def selectMainMenuMsg : String := "Выберите вариант из меню ниже:"

/-- `Messages.NO_LEARNING_CARDS.format(actual, required)`. -/
def noLearningCardsMsg (actual required : Nat) : String :=
  "У вас сейчас " ++ toString actual ++
    " карточек, а для обучения необходимо как минимум " ++ toString required ++
    "! Сперва добавьте больше новых слов, затем повторите попытку!"

/-- `Messages.PLAN_LEARNING_COUNT.format(n)`. -/
def planLearningCountMsg (n : Nat) : String :=
  "Вы будете изучать " ++ toString n ++ " слов, приступим 🤓"

/-- `Messages.SELECT_TRANSLATION.format(w)`. -/
def selectTranslationMsg (w : String) : String :=
  "Выберите перевод слова:\n🇷🇺 " ++ w

/-- `Messages.CORRECT_TRANSLATION.format(asked, answer)`. -/
def correctTranslationMsg (asked answer : String) : String :=
  "Верно!\n🇷🇺 " ++ asked ++ " → 🇬🇧 " ++ answer

/-- `Messages.WRONG_TRANSLATION`. -/
def wrongTranslationMsg : String :=
  "😢 Ответ неверный! Попробуйте отгадать снова 🙏"

/-- `Messages.SKIPPED_TRANSLATION`. -/
def skippedTranslationMsg : String := "Пропускаем слово, бежим дальше 🏃‍♂️‍➡️"

/-- `Messages.FINISHED_LEARNING.format(succeeded, skipped, failed)`. -/
def finishedLearningMsg (succeeded skipped failed : Nat) : String :=
  "Обучение завершено. Вот ваши результаты:\nИзучено слов: " ++
    toString succeeded ++ " ✅\nПропущено слов: " ++ toString skipped ++
    " ⏩\nКоличество ошибок: " ++ toString failed ++ " ❌"

/-- `Messages.ENTER_RU_WORD`. -/
def enterRuWordMsg : String := "Введите новое слово 🇷🇺:"

/-- `Messages.ENTER_EN_WORD`. -/
def enterEnWordMsg : String := "Введите его перевод 🇬🇧:"

/-- `Messages.ADDED_RU_EN_CARD.format(ru, en)`. -/
def addedRuEnCardMsg (ru en : String) : String :=
  "Добавлена новая карточка:\n🇷🇺 " ++ ru ++ " → 🇬🇧 " ++ en

/-- `Messages.DELETED_RU_EN_CARD.format(ru, en)`. -/
def deletedRuEnCardMsg (ru en : String) : String :=
  "Удалена карточка:\n🇷🇺 " ++ ru ++ " → 🇬🇧 " ++ en

/-- `Messages.NEW_LEARNING_COUNT.format(n)`. -/
def newLearningCountMsg (n : Nat) : String :=
  "Теперь вы изучаете " ++ toString n ++ " слов!"

/-- Modelled from the spec: `Messages.WORD_TOO_LONG.format(BaseWord.MAX_LENGTH)`
(`AddCardState.WORD_TOO_LONG`).  The member `WORD_TOO_LONG` of the `Messages`
enum is referenced by `controller/add_card.py` but its text is not in the
provided sources; the spec only requires an oversized-input warning quoting
the bound. -/
def wordTooLongMsg : String :=
  "Слишком длинное слово, максимум " ++ toString maxWordLength ++ " символов!"

/-! ### Per-user data model (`model/types.py`, per-user projection) -/

/-- `UserState`. -/
inductive UserState where
  | unknownState
  | newUser
  | mainMenu
  | learning
  | addingCard
deriving DecidableEq, Repr

/-- A `LearningCard` joined with its two words.  Words are unique on
(text, language) and cards are unique on the pair of word ids, so the pair of
texts identifies a card. -/
structure Card where
  ruText : String
  enText : String
deriving DecidableEq, Repr

/-- `LearningDistractor`: a wrong-answer card with its keyboard order. -/
structure Distractor where
  order : Nat
  card : Card
deriving DecidableEq, Repr

/-- `LearningQuestion`. -/
structure Question where
  order : Nat
  answerCard : Card
  answerPosition : Nat
  distractors : List Distractor
deriving DecidableEq, Repr

/-- `LearningProgress`: per-session counters. -/
structure Progress where
  succeededCount : Nat := 0
  failedCount : Nat := 0
  skippedCount : Nat := 0
deriving DecidableEq, Repr

/-- The all-zero progress, `LearningProgress(user=user)`. -/
def zeroProgress : Progress := {}

/-- The per-user view of the persistent store: the user's state, card
collection (`user.cards`), question records (`user.questions`), learning
progress and pending add-card progress (the collected source word text). -/
structure Store where
  userState : UserState
  cards : List Card
  questions : List Question
  progress : Option Progress
  pendingRu : Option String
deriving DecidableEq, Repr

/-- A SQLAlchemy session: the committed store and the current store holding
uncommitted changes.  A turn starts with both equal; closing the session
without a commit discards `cur`. -/
structure LSession where
  db : Store
  cur : Store
deriving DecidableEq, Repr

/-- `DatabaseModel.commit`. -/
def commitS (s : LSession) : LSession := ⟨s.cur, s.cur⟩

/-! ### Per-user store operations (`model/db.py`) -/

/-- `delete_learning_question(session, user)` with `question=None`:
remove all question records for the user. -/
def deleteAllQuestions (st : Store) : Store := { st with questions := [] }

/-- `delete_learning_question(session, user, question)`:
remove one question record. -/
def deleteQuestion (st : Store) (q : Question) : Store :=
  { st with questions := st.questions.erase q }

/-- `add_learning_question`. -/
def addQuestion (st : Store) (q : Question) : Store :=
  { st with questions := st.questions ++ [q] }

/-- Selection step of `get_next_learning_question`: keep the record with the
smaller `order` (the first one on ties, matching `ORDER BY ... LIMIT 1`). -/
def minOrderStep (acc : Option Question) (q : Question) : Option Question :=
  match acc with
  | none => some q
  | some p => if q.order < p.order then some q else some p

/-- `get_next_learning_question`: the question with the least order index. -/
def nextOf (qs : List Question) : Option Question := qs.foldl minOrderStep none

/-- `get_card_number`. -/
def getCardNumber (st : Store) : Nat := st.cards.length

/-- `get_cards`: the user's card collection. -/
def getCards (st : Store) : List Card := st.cards

/-- `delete_user_card`: `user.cards.remove(card)`. -/
def deleteUserCard (st : Store) (c : Card) : Store :=
  { st with cards := st.cards.erase c }

/-- `get_learning_progress` combined with the controller's
`_get_learning_progress` default. -/
def getProgressD (st : Store) : Progress := st.progress.getD zeroProgress

/-- `update_learning_progress` (a merge: insert or replace). -/
def updateProgress (st : Store) (p : Progress) : Store :=
  { st with progress := some p }

/-- `LearningState._increment_succeeded`. -/
def incSucceeded (st : Store) : Store :=
  let p := getProgressD st
  updateProgress st { p with succeededCount := p.succeededCount + 1 }

/-- `LearningState._increment_failed`. -/
def incFailed (st : Store) : Store :=
  let p := getProgressD st
  updateProgress st { p with failedCount := p.failedCount + 1 }

/-- `LearningState._increment_skipped`. -/
def incSkipped (st : Store) : Store :=
  let p := getProgressD st
  updateProgress st { p with skippedCount := p.skippedCount + 1 }

/-- `delete_new_card_progress`. -/
def deleteNewCardProgress (st : Store) : Store := { st with pendingRu := none }

/-! ### Messages and keyboards (`controller/types.py`) -/

/-- `BotKeyboard`. -/
structure BotKeyboard where
  rowSize : Nat
  buttons : List String
deriving DecidableEq, Repr

/-- `OutputMessage` (the user field is implicit: one user per run). -/
structure OutputMessage where
  text : String
  keyboard : Option BotKeyboard := none
deriving DecidableEq, Repr

/-- `OutputMessage.add_paragraph_before` with the default separator. -/
def addParagraphBefore (p : String) (m : OutputMessage) : OutputMessage :=
  { m with text := p ++ "\n\n" ++ m.text }

/-! ### Learning engine (`controller/learning.py`) -/

/-- Membership test of a key in the choice dictionary
(`choice.en_word.text not in choices`). -/
def hasKey (k : String) : List (String × Card) → Bool
  | [] => false
  | p :: rest => p.1 == k || hasKey k rest

/-- Python `del choices[k]`: drop the entry with key `k`
(keys are unique in a dict). -/
def eraseKey (k : String) : List (String × Card) → List (String × Card)
  | [] => []
  | p :: rest => if p.1 == k then rest else p :: eraseKey k rest

/-- The `while len(choices) < CHOICE_COUNT` loop of
`_get_distractors_for_card`.  The insertion-ordered dict is an association
list; each loop iteration consumes one result of `get_random_card` from the
draw stream (`none` models an empty collection result, skipped by the
`if choice` guard).  Returns `none` when the stream is exhausted before the
dict is full, i.e. when that run of the loop does not terminate within the
given draws. -/
def distractorLoop : List (String × Card) → List (Option Card) →
    Option (List (String × Card))
  | choices, [] =>
    if choices.length ≥ choiceCount then some choices else none
  | choices, draw :: rest =>
    if choices.length ≥ choiceCount then some choices
    else
      match draw with
      | none => distractorLoop choices rest
      | some c =>
        if hasKey c.enText choices then distractorLoop choices rest
        else distractorLoop (choices ++ [(c.enText, c)]) rest

/-- Python `enumerate` starting at `i`. -/
def enumFrom (i : Nat) : List α → List (Nat × α)
  | [] => []
  | a :: rest => (i, a) :: enumFrom (i + 1) rest

/-- `LearningState._get_distractors_for_card`: seed the choice dict with the
correct answer, fill it from random draws, delete the answer, and enumerate
the remaining wrong answers. -/
def getDistractorsForCard (card : Card) (draws : List (Option Card)) :
    Option (List Distractor) :=
  (distractorLoop [(card.enText, card)] draws).map fun choices =>
    (enumFrom 0 ((eraseKey card.enText choices).map (·.2))).map
      fun x => Distractor.mk x.1 x.2

/-- Randomness oracle for `LearningState.start`: the shuffled card list
returned by `get_random_cards`, the `random.randrange(CHOICE_COUNT)` answer
positions and the `get_random_card` draw stream for each question order. -/
structure LearnOracle where
  shuffle : List Card
  positions : Nat → Nat
  draws : Nat → List (Option Card)

/-- `LearningState._add_question_for_card`. -/
def addQuestionForCard (st : Store) (o : LearnOracle) (order : Nat)
    (card : Card) : Option Store :=
  (getDistractorsForCard card (o.draws order)).map fun ds =>
    addQuestion st ⟨order, card, o.positions order, ds⟩

/-- The `for order, card in enumerate(cards)` loop of `LearningState.start`. -/
def questionsLoop (o : LearnOracle) : Store → Nat → List Card → Option Store
  | st, _, [] => some st
  | st, order, c :: rest =>
    match addQuestionForCard st o order c with
    | none => none
    | some st' => questionsLoop o st' (order + 1) rest

/-- `StateManager._update_user_state`: set the user state and commit. -/
def updateUserState (s : LSession) (st : UserState) : LSession :=
  commitS { s with cur := { s.cur with userState := st } }

/-- The main menu keyboard (`MainMenuState.KEYBOARD`). -/
def mainMenuKeyboard : BotKeyboard := ⟨1, [learnLabel, addCardLabel]⟩

/-- `MainMenuState.start`: the fixed menu message. -/
def mainMenuStartMsg : OutputMessage := ⟨selectMainMenuMsg, some mainMenuKeyboard⟩

/-- `StateManager.start_main_menu`: persist the `MAIN_MENU` state, then run
`MainMenuState.start`. -/
def startMainMenu (s : LSession) : LSession × OutputMessage :=
  (updateUserState s .mainMenu, mainMenuStartMsg)

/-- `LearningState._finish_learning`: delete all remaining questions, go back
to the main menu (which commits), and report the counters. -/
def finishLearning (s : LSession) : LSession × OutputMessage :=
  let s1 : LSession := { s with cur := deleteAllQuestions s.cur }
  let r := startMainMenu s1
  let p := getProgressD r.1.cur
  (r.1,
    addParagraphBefore
      (finishedLearningMsg p.succeededCount p.skippedCount p.failedCount) r.2)

/-- `LearningState._get_keyboard`: the distractor cards with the correct card
inserted at the answer position (`list.insert`, which clamps the index), then
the learning menu buttons. -/
def pyInsert (pos : Nat) (x : Card) : List Card → List Card
  | [] => [x]
  | c :: rest =>
    match pos with
    | 0 => x :: c :: rest
    | p + 1 => c :: pyInsert p x rest

/-- `LearningState._get_keyboard`. -/
def questionKeyboard (q : Question) : BotKeyboard :=
  let cards := pyInsert q.answerPosition q.answerCard (q.distractors.map (·.card))
  ⟨2, cards.map (·.enText) ++ [skipLabel, deleteLabel, finishLabel]⟩

/-- `LearningState._show_learning_card`: show the cached question, else the
next stored question, else finish the session. -/
def showLearningCard (s : LSession) (cached : Option Question) :
    LSession × OutputMessage :=
  let q? : Option Question :=
    match cached with
    | some q => some q
    | none => nextOf s.cur.questions
  match q? with
  | some q =>
    (s, ⟨selectTranslationMsg q.answerCard.ruText, some (questionKeyboard q)⟩)
  | none => finishLearning s

/-- `LearningState.start`. -/
def learningStart (s : LSession) (o : LearnOracle) :
    Option (LSession × OutputMessage) :=
  let cur0 := updateProgress (deleteAllQuestions s.cur) zeroProgress
  let s0 : LSession := { s with cur := cur0 }
  let n := getCardNumber cur0
  if n < choiceCount then
    let r := startMainMenu s0
    some (r.1, addParagraphBefore (noLearningCardsMsg n choiceCount) r.2)
  else
    match questionsLoop o cur0 0 o.shuffle with
    | none => none
    | some cur1 =>
      let s1 := commitS { s0 with cur := cur1 }
      let r := showLearningCard s1 none
      some (r.1, addParagraphBefore (planLearningCountMsg n) r.2)

/-- Which progress counter a `respond` turn incremented; `finished` also
covers the already-exhausted case. -/
inductive Outcome where
  | succeeded
  | failed
  | skipped
  | deletedCard
  | finished
deriving DecidableEq, Repr

/-- `LearningState.respond`, tagged with the outcome of the turn. -/
def learningRespond (s : LSession) (input : String) :
    LSession × OutputMessage × Outcome :=
  match nextOf s.cur.questions with
  | none =>
    let r := finishLearning s
    (r.1, r.2, .finished)
  | some q =>
    if input = finishLabel then
      let r := finishLearning s
      (r.1, r.2, .finished)
    else
      let asked := q.answerCard.ruText
      let answer := q.answerCard.enText
      if preprocessWordMatch input = answer then
        let s1 := commitS { s with cur := incSucceeded (deleteQuestion s.cur q) }
        let r := showLearningCard s1 none
        (r.1, addParagraphBefore (correctTranslationMsg asked answer) r.2,
          .succeeded)
      else if input = skipLabel then
        let s1 := commitS { s with cur := incSkipped (deleteQuestion s.cur q) }
        let r := showLearningCard s1 none
        (r.1, addParagraphBefore skippedTranslationMsg r.2, .skipped)
      else if input = deleteLabel then
        let s1 := commitS
          { s with cur := deleteUserCard (deleteQuestion s.cur q) q.answerCard }
        let r := showLearningCard s1 none
        (r.1, addParagraphBefore (deletedRuEnCardMsg asked answer) r.2,
          .deletedCard)
      else
        let s1 := commitS { s with cur := incFailed s.cur }
        let r := showLearningCard s1 (some q)
        (r.1, addParagraphBefore wrongTranslationMsg r.2, .failed)

/-! ### Add-card state (`controller/add_card.py`) -/

/-- `AddCardState.start`: clear stale progress, commit, prompt for the
source word. -/
def addCardStart (s : LSession) : LSession × OutputMessage :=
  (commitS { s with cur := deleteNewCardProgress s.cur }, ⟨enterRuWordMsg, none⟩)

/-- `AddCardState._process_first_word`. -/
def processFirstWord (s : LSession) (input : String) : LSession × OutputMessage :=
  match preprocessUserWord input with
  | none =>
    let r := addCardStart s
    (r.1, addParagraphBefore wordTooLongMsg r.2)
  | some ru =>
    (commitS { s with cur := { s.cur with pendingRu := some ru } },
      ⟨enterEnWordMsg, none⟩)

/-- `AddCardState._process_second_word`.  The pending progress is deleted in
the current store before validation; on `WordTooLongError` the method returns
without committing, so the deletion is rolled back when the turn's session
closes. -/
def processSecondWord (s : LSession) (input : String) (ru : String) :
    LSession × OutputMessage :=
  let cur1 := deleteNewCardProgress s.cur
  match preprocessUserWord input with
  | none =>
    ({ s with cur := cur1 },
      addParagraphBefore wordTooLongMsg ⟨enterEnWordMsg, none⟩)
  | some en =>
    let card : Card := ⟨ru, en⟩
    let cur2 :=
      { cur1 with
        cards := if card ∈ cur1.cards then cur1.cards else cur1.cards ++ [card] }
    let s1 := commitS { s with cur := cur2 }
    let n := getCardNumber s1.cur
    let r := startMainMenu s1
    (r.1,
      addParagraphBefore (addedRuEnCardMsg ru en)
        (addParagraphBefore (newLearningCountMsg n) r.2))

/-- `AddCardState.respond`. -/
def addCardRespond (s : LSession) (input : String) : LSession × OutputMessage :=
  match s.cur.pendingRu with
  | some ru => processSecondWord s input ru
  | none => processFirstWord s input

/-! ### State manager and main menu (`state_manager.py`, `main_menu.py`) -/

/-- Dispatch of `start` through `StateManager._states`.  States outside the
dictionary raise `KeyError`, modelled as `none`; `StateManager.start` is only
ever called with the three mapped states. -/
def stateStart (st : UserState) (s : LSession) (o : LearnOracle) :
    Option (LSession × OutputMessage) :=
  match st with
  | .mainMenu => some (s, mainMenuStartMsg)
  | .learning => learningStart s o
  | .addingCard => some (addCardStart s)
  | _ => none

/-- `StateManager.start`: persist the new state (with a commit), then run the
state's `start`. -/
def managerStart (s : LSession) (st : UserState) (o : LearnOracle) :
    Option (LSession × OutputMessage) :=
  stateStart st (updateUserState s st) o

/-- `MainMenuState.respond`: exact match against the two menu labels;
unrecognized input returns no reply and performs no model operation. -/
def mainMenuRespond (s : LSession) (input : String) (o : LearnOracle) :
    Option (LSession × Option OutputMessage) :=
  if input = learnLabel then
    (managerStart s .learning o).map fun r => (r.1, some r.2)
  else if input = addCardLabel then
    (managerStart s .addingCard o).map fun r => (r.1, some r.2)
  else
    some (s, none)

/-! ### Turn wrappers

`Controller.respond_user` opens a fresh session per inbound message; the
store visible to the next turn is the committed component when the session
closes. -/

/-- One learning-state turn over the committed store. -/
def learningTurn (db : Store) (input : String) :
    Store × OutputMessage × Outcome :=
  let r := learningRespond ⟨db, db⟩ input
  (r.1.db, r.2.1, r.2.2)

/-- A sequence of learning-state turns, collecting the outcomes. -/
def runLearning : Store → List String → Store × List Outcome
  | db, [] => (db, [])
  | db, input :: rest =>
    let r := learningTurn db input
    let rr := runLearning r.1 rest
    (rr.1, r.2.2 :: rr.2)

/-- Occurrences of one outcome in a turn trace. -/
def countOutcome (evs : List Outcome) (e : Outcome) : Nat :=
  (evs.filter (· = e)).length

/-- One add-card-state turn over the committed store. -/
def addCardTurn (db : Store) (input : String) : Store × OutputMessage :=
  let r := addCardRespond ⟨db, db⟩ input
  (r.1.db, r.2)

/-! ### Specification-level predicates -/

/-- Every entry of the choice dictionary is keyed by its card's target text. -/
def keyOk (l : List (String × Card)) : Prop := ∀ p ∈ l, p.1 = p.2.enText

/-- The distractor invariant claimed for every generated question: exactly
`CHOICE_COUNT - 1` distractors whose target texts are pairwise distinct and
distinct from the correct answer's text. -/
def goodDistractors (q : Question) : Prop :=
  q.distractors.length = choiceCount - 1 ∧
    (q.distractors.map fun d => d.card.enText).Nodup ∧
    ∀ d ∈ q.distractors, d.card.enText ≠ q.answerCard.enText

/-- Validity of a `get_random_card` draw stream: every produced card belongs
to the user's collection. -/
def validDraws (st : Store) (draws : List (Option Card)) : Prop :=
  ∀ oc ∈ draws, ∀ c : Card, oc = some c → c ∈ st.cards

/-- Termination of the distractor-selection loop for answer card `c` over
store `st`: some finite stream of draws from the user's collection completes
the loop, yielding `CHOICE_COUNT` pairwise-distinct target texts (the answer
text plus `CHOICE_COUNT - 1` distractor texts).  For a uniform sampler over a
finite collection this possibilistic statement is the right notion: the loop
state only grows, so an achievable completing draw sequence exists iff the
loop terminates with probability one. -/
def distractorSelectionTerminates (st : Store) (c : Card) : Prop :=
  ∃ draws : List (Option Card), validDraws st draws ∧
    ∃ ds, getDistractorsForCard c draws = some ds ∧
      ds.length = choiceCount - 1 ∧
      ((c.enText :: ds.map fun d => d.card.enText)).Nodup

namespace Rel

/-!
### Relational store (`model/types.py`, `model/db.py`)

The deduplicated word/card tables, the user table and the user-card
association, for the claims about `add_word`/`add_card` reuse and the
`/start` bootstrap.  Autoincrement surrogate keys are `nextWordId` /
`nextCardId`.
-/

/-- `Language`. -/
inductive Lang where
  | en
  | ru
deriving DecidableEq, Repr

/-- A row of the `word` table (`BaseWord`): unique on (text, language). -/
structure WordRow where
  id : Nat
  text : String
  lang : Lang
deriving DecidableEq, Repr

/-- A row of the `card` table (`LearningCard`): unique on the word-id pair. -/
structure CardRow where
  id : Nat
  ruWordId : Nat
  enWordId : Nat
deriving DecidableEq, Repr

/-- A row of the `user` table. -/
structure UserRow where
  id : Nat
  username : Option String
  firstName : Option String
  lastName : Option String
  state : UserState
deriving DecidableEq, Repr

/-- The inbound user identity and profile fields of an `InputMessage`. -/
structure InputUser where
  id : Nat
  username : Option String
  firstName : Option String
  lastName : Option String
deriving DecidableEq, Repr

/-- The relational store. -/
structure DB where
  users : List UserRow
  words : List WordRow
  cards : List CardRow
  userCards : List (Nat × Nat)
  nextWordId : Nat
  nextCardId : Nat
deriving DecidableEq, Repr

/-- The `SELECT ... WHERE text = ... AND language = ...` of
`DatabaseModel.add_word`. -/
def findWord (db : DB) (text : String) (lang : Lang) : Option WordRow :=
  db.words.find? fun w => w.text == text && w.lang == lang

/-- `DatabaseModel.add_word` on normalized text: return the existing row's id,
or insert a fresh row. -/
def addWordRow (db : DB) (text : String) (lang : Lang) : DB × Nat :=
  match findWord db text lang with
  | some w => (db, w.id)
  | none =>
    ({ db with
        words := db.words ++ [⟨db.nextWordId, text, lang⟩],
        nextWordId := db.nextWordId + 1 },
      db.nextWordId)

/-- The `SELECT ... WHERE ru_word_id = ... AND en_word_id = ...` of
`DatabaseModel.add_card`. -/
def findCard (db : DB) (ruId enId : Nat) : Option CardRow :=
  db.cards.find? fun c => c.ruWordId == ruId && c.enWordId == enId

/-- `DatabaseModel.add_card`: return the existing row's id, or insert a
fresh row. -/
def addCardRow (db : DB) (ruId enId : Nat) : DB × Nat :=
  match findCard db ruId enId with
  | some c => (db, c.id)
  | none =>
    ({ db with
        cards := db.cards ++ [⟨db.nextCardId, ruId, enId⟩],
        nextCardId := db.nextCardId + 1 },
      db.nextCardId)

/-- `CardManager.add_card` from raw texts: preprocess and deduplicate the
russian word, then the english word, then the card.  `none` models the
`WordTooLongError`. -/
def cmAddCard (db : DB) (ruText enText : String) : Option (DB × Nat) :=
  match preprocessUserWord ruText with
  | none => none
  | some ru =>
    let r1 := addWordRow db ru .ru
    match preprocessUserWord enText with
    | none => none
    | some en =>
      let r2 := addWordRow r1.1 en .en
      some (addCardRow r2.1 r1.2 r2.2)

/-- `user.cards.add(card)`: stage an insert into the association table. -/
def addUserCard (db : DB) (uid cid : Nat) : DB :=
  { db with userCards := db.userCards ++ [(uid, cid)] }

/-- Create-or-reuse a card and attach it to a user's collection: the common
core of `AddCardState._process_second_word` and
`Controller._add_default_cards`. -/
def addCardFlow (db : DB) (uid : Nat) (ruText enText : String) : Option DB :=
  (cmAddCard db ruText enText).map fun r => addUserCard r.1 uid r.2

/-- `Controller._add_default_cards`: seed every default pair. -/
def addDefaultCards (uid : Nat) : DB → List (String × String) → Option DB
  | db, [] => some db
  | db, pair :: rest =>
    match addCardFlow db uid pair.1 pair.2 with
    | none => none
    | some db' => addDefaultCards uid db' rest

/-- `DatabaseModel.get_user` (`session.get(User, user_id)`). -/
def getUserRow (db : DB) (uid : Nat) : Option UserRow :=
  db.users.find? fun r => r.id == uid

/-- `DatabaseModel.update_user` (`session.merge`): replace the row with the
same primary key. -/
def updateUserRow (db : DB) (u : UserRow) : DB :=
  { db with users := db.users.map fun r => if r.id == u.id then u else r }

/-- Set one user's persisted state (`StateManager._update_user_state`). -/
def setUserStateRow (db : DB) (uid : Nat) (st : UserState) : DB :=
  { db with
    users := db.users.map fun r =>
      if r.id == uid then { r with state := st } else r }

/-- `Controller._preprocess_user`: refresh an existing user's profile keeping
the stored state, or create the user with state `NEW_USER` and seed the
default cards.  Returns the store and the state used for the greeting. -/
def preprocessUser (defaults : List (String × String)) (db : DB)
    (u : InputUser) : Option (DB × UserState) :=
  match getUserRow db u.id with
  | some ex =>
    some (updateUserRow db ⟨u.id, u.username, u.firstName, u.lastName, ex.state⟩,
      ex.state)
  | none =>
    let db1 :=
      { db with
        users := db.users ++ [⟨u.id, u.username, u.firstName, u.lastName,
          .newUser⟩] }
    (addDefaultCards u.id db1 defaults).map fun db2 => (db2, .newUser)

/-- `Controller.start_user`, restricted to its store effects: bootstrap the
user, then enter the main menu (which persists `MAIN_MENU`). -/
def startUser (defaults : List (String × String)) (db : DB) (u : InputUser) :
    Option DB :=
  (preprocessUser defaults db u).map fun r =>
    setUserStateRow r.1 u.id .mainMenu

/-- Number of word rows carrying one (text, language) natural key. -/
def wordKeyCount (db : DB) (t : String) (l : Lang) : Nat :=
  (db.words.filter fun w => w.text == t && w.lang == l).length

/-- Number of card rows carrying one (ru word id, en word id) natural key. -/
def cardKeyCount (db : DB) (ruId enId : Nat) : Nat :=
  (db.cards.filter fun c => c.ruWordId == ruId && c.enWordId == enId).length

/-- The unique constraint of the `word` table on (text, language). -/
def wordKeysNodup (db : DB) : Prop :=
  (db.words.map fun w => (w.text, w.lang)).Nodup

/-- The unique constraint of the `card` table on the word-id pair. -/
def cardKeysNodup (db : DB) : Prop :=
  (db.cards.map fun c => (c.ruWordId, c.enWordId)).Nodup

/-- The empty store. -/
def emptyDB : DB := ⟨[], [], [], [], 0, 0⟩

/-- A sample default seed list. -/
def exDefaults : List (String × String) := [("Привет", "hello"), ("Мир", "world")]

/-- A sample inbound user. -/
def exUser : InputUser := ⟨7, some "alice7", some "Алиса", none⟩

/-- The store after the first user adds the pair ("привет", "hello"). -/
def c7db1 : DB := (addCardFlow emptyDB 1 "Привет" "Hello").get (by decide)

/-- The store after a second user submits the same pair up to
normalization. -/
def c7db2 : DB := (addCardFlow c7db1 2 " привет " "HELLO").get (by decide)

/-- The store after the first `/start` of `exUser`. -/
def c8db1 : DB := (startUser exDefaults emptyDB exUser).get (by decide)

/-- The store after the second `/start` of `exUser`. -/
def c8db2 : DB := (startUser exDefaults c8db1 exUser).get (by decide)

end Rel

/-! ### Concrete sample data (used by witnesses and counterexamples) -/

/-- A four-card collection with pairwise-distinct target texts. -/
def exCards : List Card :=
  [⟨"кот", "cat"⟩, ⟨"пёс", "dog"⟩, ⟨"дом", "house"⟩, ⟨"мир", "world"⟩]

/-- A user in the learning state holding `exCards`, before session start. -/
def exStore : Store := ⟨.learning, exCards, [], some zeroProgress, none⟩

/-- A draw stream enumerating `exCards`. -/
def exDraws : List (Option Card) := exCards.map some

/-- An oracle whose shuffle is the identity and whose draws enumerate the
collection. -/
def exOracle : LearnOracle := ⟨exCards, fun _ => 2, fun _ => exDraws⟩

/-- The result of a successful `LearningState.start` on the sample data. -/
def exStartRes : LSession × OutputMessage :=
  (learningStart ⟨exStore, exStore⟩ exOracle).get (by decide)

/-- A two-card collection (below the threshold). -/
def smallStore : Store :=
  ⟨.mainMenu, [⟨"кот", "cat"⟩, ⟨"пёс", "dog"⟩], [], none, none⟩

/-- A pending question on `exCards` with the first card as answer. -/
def exQuestion : Question :=
  ⟨0, ⟨"кот", "cat"⟩, 1,
    [⟨0, ⟨"пёс", "dog"⟩⟩, ⟨1, ⟨"дом", "house"⟩⟩, ⟨2, ⟨"мир", "world"⟩⟩]⟩

/-- A mid-session learning store with one pending question. -/
def exRespondStore : Store :=
  ⟨.learning, exCards, [exQuestion], some zeroProgress, none⟩

/-- A card whose stored target text happens to be the normalized Skip
command label (a perfectly legal card: the text passes validation). -/
def cxSkipCard : Card := ⟨"кот", "⏩ пропустить слово"⟩

/-- A session whose pending question's correct answer is the normalized Skip
label. -/
def cxSkipStore : Store :=
  ⟨.learning, [cxSkipCard], [⟨0, cxSkipCard, 0, []⟩], some zeroProgress, none⟩

/-- A card whose stored target text is the normalized Delete command label. -/
def cxDelCard : Card := ⟨"кот", "❌ удалить слово"⟩

/-- A session whose pending question's correct answer is the normalized
Delete label. -/
def cxDelStore : Store :=
  ⟨.learning, [cxDelCard], [⟨0, cxDelCard, 0, []⟩], some zeroProgress, none⟩

/-- An add-card store with pending progress from the first step. -/
def pendingStore : Store := ⟨.addingCard, exCards, [], none, some "привет"⟩

/-- A 70-character input: longer than `MAX_LENGTH` even after stripping. -/
def longInput : String := ⟨List.replicate 70 'a'⟩

/-- Four cards sharing one target text: the collection passes the
cardinality precondition yet the distractor loop can never finish. -/
def c4Store : Store :=
  ⟨.learning, [⟨"а", "x"⟩, ⟨"б", "x"⟩, ⟨"в", "x"⟩, ⟨"г", "x"⟩], [],
    some zeroProgress, none⟩

/-- The answer card used for the C4 counterexample. -/
def c4Card : Card := ⟨"а", "x"⟩

/-! ## Helper lemmas -/

theorem pyLower_length (s : String) : (pyLower s).length = s.length := by
  show (s.data.map pyCharLower).length = s.data.length
  exact List.length_map _ _

theorem preprocessUserWord_some {t r : String} (h : preprocessUserWord t = some r) :
    r = pyLower (pyStrip t) ∧ (pyStrip t).length ≤ maxWordLength := by
  simp only [preprocessUserWord] at h
  split at h
  · cases h
  · cases h
    exact ⟨rfl, by omega⟩

theorem preprocessUserWord_none {t : String} (h : preprocessUserWord t = none) :
    maxWordLength < (pyStrip t).length := by
  simp only [preprocessUserWord] at h
  split at h
  · omega
  · cases h

/-- If the trimmed-and-lowercased input equals a stored (hence length-bounded)
answer text, `_preprocess_word` returns exactly that answer. -/
theorem preprocessWordMatch_eq {t answer : String}
    (hlen : answer.length ≤ maxWordLength)
    (h : pyLower (pyStrip t) = answer) : preprocessWordMatch t = answer := by
  unfold preprocessWordMatch
  cases hp : preprocessUserWord t with
  | some r =>
    show r = answer
    exact (preprocessUserWord_some hp).1.trans h
  | none =>
    exfalso
    have hg := preprocessUserWord_none hp
    have hl := pyLower_length (pyStrip t)
    rw [h] at hl
    omega

/-- If the trimmed-and-lowercased input differs from a stored (normalized,
length-bounded) answer text, `_preprocess_word` cannot return the answer. -/
theorem preprocessWordMatch_ne {t answer : String}
    (hlen : answer.length ≤ maxWordLength)
    (hstrip : pyStrip answer = answer)
    (h : pyLower (pyStrip t) ≠ answer) : preprocessWordMatch t ≠ answer := by
  unfold preprocessWordMatch
  cases hp : preprocessUserWord t with
  | some r =>
    show r ≠ answer
    rw [(preprocessUserWord_some hp).1]
    exact h
  | none =>
    show t ≠ answer
    intro ht
    have hg := preprocessUserWord_none hp
    rw [ht, hstrip] at hg
    omega

theorem foldl_minOrderStep_some :
    ∀ (qs : List Question) (p : Question),
      ∃ r, qs.foldl minOrderStep (some p) = some r ∧ (r = p ∨ r ∈ qs) := by
  intro qs
  induction qs with
  | nil => exact fun p => ⟨p, rfl, Or.inl rfl⟩
  | cons q rest ih =>
    intro p
    simp only [List.foldl_cons, minOrderStep]
    split
    · obtain ⟨r, hr, hmem⟩ := ih q
      refine ⟨r, hr, Or.inr ?_⟩
      rcases hmem with h | h
      · simp [h]
      · simp [h]
    · obtain ⟨r, hr, hmem⟩ := ih p
      refine ⟨r, hr, ?_⟩
      rcases hmem with h | h
      · exact Or.inl h
      · exact Or.inr (by simp [h])

theorem nextOf_eq_none {qs : List Question} : nextOf qs = none ↔ qs = [] := by
  cases qs with
  | nil => simp [nextOf]
  | cons q rest =>
    simp only [nextOf, List.foldl_cons, minOrderStep]
    obtain ⟨r, hr, _⟩ := foldl_minOrderStep_some rest q
    simp [hr]

theorem nextOf_mem {qs : List Question} {q : Question} (h : nextOf qs = some q) :
    q ∈ qs := by
  cases qs with
  | nil => cases h
  | cons p rest =>
    simp only [nextOf, List.foldl_cons, minOrderStep] at h
    obtain ⟨r, hr, hmem⟩ := foldl_minOrderStep_some rest p
    rw [hr] at h
    cases h
    rcases hmem with h | h
    · simp [h]
    · simp [h]

theorem hasKey_eq_false_iff {k : String} {l : List (String × Card)} :
    hasKey k l = false ↔ ∀ p ∈ l, p.1 ≠ k := by
  induction l with
  | nil => simp [hasKey]
  | cons p rest ih => simp [hasKey, ih]

theorem hasKey_append {k : String} {l₁ l₂ : List (String × Card)} :
    hasKey k (l₁ ++ l₂) = (hasKey k l₁ || hasKey k l₂) := by
  induction l₁ with
  | nil => simp [hasKey]
  | cons p rest ih => simp [hasKey, ih, Bool.or_assoc]

theorem eraseKey_cons_self {k : String} {c : Card} {rest : List (String × Card)} :
    eraseKey k ((k, c) :: rest) = rest := by
  simp [eraseKey]

theorem enumFrom_map_snd : ∀ (i : Nat) (l : List α), (enumFrom i l).map (·.2) = l := by
  intro i l
  induction l generalizing i with
  | nil => rfl
  | cons a rest ih => simp [enumFrom, ih]

theorem enumFrom_length : ∀ (i : Nat) (l : List α), (enumFrom i l).length = l.length := by
  intro i l
  induction l generalizing i with
  | nil => rfl
  | cons a rest ih => simp [enumFrom, ih]

/-- Structure of a successful distractor-loop run: the dictionary only grows,
ends with exactly `CHOICE_COUNT` entries, keeps its keys consistent, and keeps
its keys distinct. -/
theorem distractorLoop_spec :
    ∀ (draws : List (Option Card)) (choices res : List (String × Card)),
      distractorLoop choices draws = some res →
      choices.length ≤ choiceCount →
      (∃ ext, res = choices ++ ext ∧ keyOk ext) ∧
        res.length = choiceCount ∧
        ((choices.map Prod.fst).Nodup → (res.map Prod.fst).Nodup) := by
  intro draws
  induction draws with
  | nil =>
    intro choices res h hle
    simp only [distractorLoop] at h
    split at h
    · cases h
      exact ⟨⟨[], by simp, by simp [keyOk]⟩, by omega, fun hn => hn⟩
    · cases h
  | cons d rest ih =>
    intro choices res h hle
    simp only [distractorLoop] at h
    split at h
    · cases h
      exact ⟨⟨[], by simp, by simp [keyOk]⟩, by omega, fun hn => hn⟩
    · rename_i hlt
      match d with
      | none => exact ih choices res h hle
      | some c =>
        simp only at h
        split at h
        · exact ih choices res h hle
        · rename_i hkey
          have hkey' : hasKey c.enText choices = false := by
            simpa using hkey
          have hnotin : c.enText ∉ choices.map Prod.fst := by
            intro hmem
            obtain ⟨p, hp, hfst⟩ := List.mem_map.mp hmem
            exact (hasKey_eq_false_iff.mp hkey' p hp) hfst
          obtain ⟨⟨ext, hres, hok⟩, hlen, hnd⟩ :=
            ih (choices ++ [(c.enText, c)]) res h (by simp [choiceCount] at hlt ⊢; omega)
          refine ⟨⟨(c.enText, c) :: ext, by simpa using hres, ?_⟩, hlen, ?_⟩
          · intro p hp
            rcases List.mem_cons.mp hp with hh | hh
            · simp [hh]
            · exact hok p hh
          · intro hchoices
            refine hnd ?_
            simp only [List.map_append, List.map_cons, List.map_nil]
            rw [List.nodup_append]
            exact ⟨hchoices, List.nodup_singleton _, by
              intro a ha hb
              simp at hb
              subst hb
              exact hnotin ha⟩

/-- When the dictionary is not full and every possible draw hits a key
already present, the loop never completes over any draw stream. -/
theorem distractorLoop_stuck :
    ∀ (draws : List (Option Card)) (choices : List (String × Card)),
      choices.length < choiceCount →
      (∀ oc ∈ draws, ∀ c : Card, oc = some c → hasKey c.enText choices = true) →
      distractorLoop choices draws = none := by
  intro draws
  induction draws with
  | nil =>
    intro choices hlt _
    simp only [distractorLoop]
    rw [if_neg (by omega)]
  | cons d rest ih =>
    intro choices hlt hall
    simp only [distractorLoop]
    rw [if_neg (by omega)]
    match d with
    | none =>
      exact ih choices hlt fun oc hoc => hall oc (List.mem_cons_of_mem _ hoc)
    | some c =>
      have hk : hasKey c.enText choices = true := hall (some c) (by simp) c rfl
      simp only [hk, if_true]
      exact ih choices hlt fun oc hoc => hall oc (List.mem_cons_of_mem _ hoc)

/-- When the remaining draws have fresh, pairwise-distinct target texts and
exactly fill the dictionary, the loop completes and appends them in order. -/
theorem distractorLoop_fills :
    ∀ (ds : List Card) (choices : List (String × Card)),
      choices.length + ds.length = choiceCount →
      (∀ d ∈ ds, hasKey d.enText choices = false) →
      ds.Pairwise (fun a b => a.enText ≠ b.enText) →
      distractorLoop choices (ds.map some) =
        some (choices ++ ds.map fun d => (d.enText, d)) := by
  intro ds
  induction ds with
  | nil =>
    intro choices hlen _ _
    simp only [List.length_nil] at hlen
    simp only [List.map_nil, distractorLoop, List.append_nil]
    rw [if_pos (by omega)]
  | cons d rest ih =>
    intro choices hlen hfresh hpw
    simp only [List.length_cons] at hlen
    simp only [List.map_cons, distractorLoop]
    rw [if_neg (by omega)]
    have hk := hfresh d (by simp)
    simp only [hk, Bool.false_eq_true, if_false]
    have hres := ih (choices ++ [(d.enText, d)])
      (by simp only [List.length_append, List.length_singleton]; omega)
      (by
        intro r hr
        rw [hasKey_append]
        have h1 : hasKey r.enText choices = false :=
          hfresh r (List.mem_cons_of_mem _ hr)
        have h2 : d.enText ≠ r.enText :=
          (List.pairwise_cons.mp hpw).1 r hr
        simp [hasKey, h1, h2])
      (List.pairwise_cons.mp hpw).2
    rw [hres]
    simp

/-- Pick, for each target text in a list, a card of the collection carrying
that text. -/
theorem exists_cards_of_texts {cards : List Card} :
    ∀ ts : List String, (∀ t ∈ ts, ∃ c ∈ cards, c.enText = t) →
      ∃ ds : List Card, (ds.map fun d => d.enText) = ts ∧ ∀ d ∈ ds, d ∈ cards := by
  intro ts
  induction ts with
  | nil => exact fun _ => ⟨[], rfl, by simp⟩
  | cons t rest ih =>
    intro hall
    obtain ⟨c, hc, hct⟩ := hall t (by simp)
    obtain ⟨ds, hmap, hmem⟩ := ih fun t' ht' => hall t' (by simp [ht'])
    refine ⟨c :: ds, by simp [hct, hmap], ?_⟩
    intro d hd
    rcases List.mem_cons.mp hd with h | h
    · exact h ▸ hc
    · exact hmem d h

/-- Structure of a successful `_get_distractors_for_card` run. -/
theorem getDistractorsForCard_spec {card : Card} {draws : List (Option Card)}
    {ds : List Distractor} (h : getDistractorsForCard card draws = some ds) :
    ds.length = choiceCount - 1 ∧ (ds.map fun d => d.card.enText).Nodup ∧
      ∀ d ∈ ds, d.card.enText ≠ card.enText := by
  simp only [getDistractorsForCard, Option.map_eq_some'] at h
  obtain ⟨res, hres, hmk⟩ := h
  obtain ⟨⟨ext, hext, hok⟩, hlen, hnd⟩ :=
    distractorLoop_spec draws _ res hres (by simp [choiceCount])
  have hres_eq : res = (card.enText, card) :: ext := by simpa using hext
  subst hres_eq
  have hextlen : ext.length = choiceCount - 1 := by
    simp only [List.length_cons] at hlen
    omega
  have hnodup : (((card.enText, card) :: ext).map Prod.fst).Nodup := by
    refine hnd ?_
    simp
  simp only [List.map_cons, List.nodup_cons] at hnodup
  have hvals : (eraseKey card.enText ((card.enText, card) :: ext)) = ext :=
    eraseKey_cons_self
  rw [hvals] at hmk
  have hcards : ds.map (fun d => d.card) = ext.map Prod.snd := by
    rw [← hmk, List.map_map]
    have := enumFrom_map_snd 0 (ext.map Prod.snd)
    simpa using this
  have htexts : (ds.map fun d => d.card.enText) = ext.map Prod.fst := by
    have h1 : (ds.map fun d => d.card.enText) =
        (ds.map fun d => d.card).map (fun c => c.enText) := by
      rw [List.map_map]
      rfl
    rw [h1, hcards, List.map_map]
    refine List.map_congr_left ?_
    intro p hp
    exact (hok p hp).symm
  refine ⟨?_, ?_, ?_⟩
  · have : ds.length = (ds.map fun d => d.card).length := by simp
    rw [this, hcards, List.length_map, hextlen]
  · rw [htexts]
    exact hnodup.2
  · intro d hd hcontra
    refine hnodup.1 ?_
    rw [← hcontra, ← htexts]
    exact List.mem_map.mpr ⟨d, hd, rfl⟩

@[simp] theorem deleteQuestion_questions (st : Store) (q : Question) :
    (deleteQuestion st q).questions = st.questions.erase q := rfl

@[simp] theorem deleteQuestion_cards (st : Store) (q : Question) :
    (deleteQuestion st q).cards = st.cards := rfl

@[simp] theorem deleteQuestion_progress (st : Store) (q : Question) :
    (deleteQuestion st q).progress = st.progress := rfl

@[simp] theorem deleteQuestion_pendingRu (st : Store) (q : Question) :
    (deleteQuestion st q).pendingRu = st.pendingRu := rfl

@[simp] theorem deleteUserCard_cards (st : Store) (c : Card) :
    (deleteUserCard st c).cards = st.cards.erase c := rfl

@[simp] theorem deleteUserCard_questions (st : Store) (c : Card) :
    (deleteUserCard st c).questions = st.questions := rfl

@[simp] theorem deleteUserCard_progress (st : Store) (c : Card) :
    (deleteUserCard st c).progress = st.progress := rfl

@[simp] theorem deleteUserCard_pendingRu (st : Store) (c : Card) :
    (deleteUserCard st c).pendingRu = st.pendingRu := rfl

@[simp] theorem incSucceeded_questions (st : Store) :
    (incSucceeded st).questions = st.questions := rfl

@[simp] theorem incSucceeded_cards (st : Store) :
    (incSucceeded st).cards = st.cards := rfl

@[simp] theorem incSucceeded_pendingRu (st : Store) :
    (incSucceeded st).pendingRu = st.pendingRu := rfl

@[simp] theorem incFailed_questions (st : Store) :
    (incFailed st).questions = st.questions := rfl

@[simp] theorem incFailed_cards (st : Store) :
    (incFailed st).cards = st.cards := rfl

@[simp] theorem incFailed_pendingRu (st : Store) :
    (incFailed st).pendingRu = st.pendingRu := rfl

@[simp] theorem incSkipped_questions (st : Store) :
    (incSkipped st).questions = st.questions := rfl

@[simp] theorem incSkipped_cards (st : Store) :
    (incSkipped st).cards = st.cards := rfl

@[simp] theorem incSkipped_pendingRu (st : Store) :
    (incSkipped st).pendingRu = st.pendingRu := rfl

@[simp] theorem getProgressD_incSucceeded (st : Store) :
    getProgressD (incSucceeded st) =
      { getProgressD st with
        succeededCount := (getProgressD st).succeededCount + 1 } := rfl

@[simp] theorem getProgressD_incFailed (st : Store) :
    getProgressD (incFailed st) =
      { getProgressD st with
        failedCount := (getProgressD st).failedCount + 1 } := rfl

@[simp] theorem getProgressD_incSkipped (st : Store) :
    getProgressD (incSkipped st) =
      { getProgressD st with
        skippedCount := (getProgressD st).skippedCount + 1 } := rfl

@[simp] theorem getProgressD_deleteQuestion (st : Store) (q : Question) :
    getProgressD (deleteQuestion st q) = getProgressD st := rfl

@[simp] theorem getProgressD_deleteUserCard (st : Store) (c : Card) :
    getProgressD (deleteUserCard st c) = getProgressD st := rfl

@[simp] theorem commitS_db (s : LSession) : (commitS s).db = s.cur := rfl

@[simp] theorem commitS_cur (s : LSession) : (commitS s).cur = s.cur := rfl

/-- `_finish_learning` computed: all questions deleted, state back to the
main menu, everything committed, counters reported from the current store. -/
theorem finishLearning_eq (s : LSession) :
    finishLearning s =
      (⟨{ s.cur with questions := [], userState := .mainMenu },
        { s.cur with questions := [], userState := .mainMenu }⟩,
        addParagraphBefore
          (finishedLearningMsg (getProgressD s.cur).succeededCount
            (getProgressD s.cur).skippedCount (getProgressD s.cur).failedCount)
          mainMenuStartMsg) := rfl

/-- `_show_learning_card` never changes the committed questions, progress,
cards or pending record of an already-committed session. -/
theorem showLearningCard_frame (s : LSession) (cached : Option Question)
    (h : s.db = s.cur) :
    (showLearningCard s cached).1.db.questions = s.cur.questions ∧
      getProgressD (showLearningCard s cached).1.db = getProgressD s.cur ∧
      (showLearningCard s cached).1.db.cards = s.cur.cards ∧
      (showLearningCard s cached).1.db.pendingRu = s.cur.pendingRu := by
  unfold showLearningCard
  cases cached with
  | some q => simp [h]
  | none =>
    cases hn : nextOf s.cur.questions with
    | some q => simp [h]
    | none =>
      have hq : s.cur.questions = [] := nextOf_eq_none.mp hn
      simp [finishLearning_eq, hq, getProgressD]

/-- The cached-question case of `_show_learning_card` re-shows the cached
question without touching the session. -/
theorem showLearningCard_some (s : LSession) (q : Question) :
    showLearningCard s (some q) =
      (s, ⟨selectTranslationMsg q.answerCard.ruText, some (questionKeyboard q)⟩) := rfl

/-- `respond` on an exhausted session or on the Finish command runs
`_finish_learning`. -/
theorem learningRespond_finish_eq (s : LSession) (input : String)
    (h : nextOf s.cur.questions = none ∨ input = finishLabel) :
    learningRespond s input =
      ((finishLearning s).1, (finishLearning s).2, .finished) := by
  rcases h with h | h
  · simp only [learningRespond, h]
  · cases hn : nextOf s.cur.questions with
    | none => simp only [learningRespond, hn]
    | some q =>
      simp only [learningRespond, hn]
      rw [if_pos h]

/-- The correct-answer branch of `respond`. -/
theorem learningRespond_success_eq (s : LSession) (input : String) (q : Question)
    (hq : nextOf s.cur.questions = some q) (hfin : input ≠ finishLabel)
    (hmatch : preprocessWordMatch input = q.answerCard.enText) :
    learningRespond s input =
      ((showLearningCard
          (commitS { s with cur := incSucceeded (deleteQuestion s.cur q) }) none).1,
        addParagraphBefore
          (correctTranslationMsg q.answerCard.ruText q.answerCard.enText)
          (showLearningCard
            (commitS { s with cur := incSucceeded (deleteQuestion s.cur q) }) none).2,
        .succeeded) := by
  simp only [learningRespond, hq]
  rw [if_neg hfin, if_pos hmatch]

/-- The Skip branch of `respond`. -/
theorem learningRespond_skip_eq (s : LSession) (input : String) (q : Question)
    (hq : nextOf s.cur.questions = some q) (hfin : input ≠ finishLabel)
    (hmatch : preprocessWordMatch input ≠ q.answerCard.enText)
    (hskip : input = skipLabel) :
    learningRespond s input =
      ((showLearningCard
          (commitS { s with cur := incSkipped (deleteQuestion s.cur q) }) none).1,
        addParagraphBefore skippedTranslationMsg
          (showLearningCard
            (commitS { s with cur := incSkipped (deleteQuestion s.cur q) }) none).2,
        .skipped) := by
  simp only [learningRespond, hq]
  rw [if_neg hfin, if_neg hmatch, if_pos hskip]

/-- The Delete branch of `respond`. -/
theorem learningRespond_delete_eq (s : LSession) (input : String) (q : Question)
    (hq : nextOf s.cur.questions = some q) (hfin : input ≠ finishLabel)
    (hmatch : preprocessWordMatch input ≠ q.answerCard.enText)
    (hskip : input ≠ skipLabel) (hdel : input = deleteLabel) :
    learningRespond s input =
      ((showLearningCard
          (commitS
            { s with cur := deleteUserCard (deleteQuestion s.cur q) q.answerCard })
          none).1,
        addParagraphBefore
          (deletedRuEnCardMsg q.answerCard.ruText q.answerCard.enText)
          (showLearningCard
            (commitS
              { s with cur := deleteUserCard (deleteQuestion s.cur q) q.answerCard })
            none).2,
        .deletedCard) := by
  simp only [learningRespond, hq]
  rw [if_neg hfin, if_neg hmatch, if_neg hskip, if_pos hdel]

/-- The wrong-answer branch of `respond`: the question is kept and re-shown
from the cached object. -/
theorem learningRespond_wrong_eq (s : LSession) (input : String) (q : Question)
    (hq : nextOf s.cur.questions = some q) (hfin : input ≠ finishLabel)
    (hmatch : preprocessWordMatch input ≠ q.answerCard.enText)
    (hskip : input ≠ skipLabel) (hdel : input ≠ deleteLabel) :
    learningRespond s input =
      ((showLearningCard (commitS { s with cur := incFailed s.cur }) (some q)).1,
        addParagraphBefore wrongTranslationMsg
          (showLearningCard
            (commitS { s with cur := incFailed s.cur }) (some q)).2,
        .failed) := by
  simp only [learningRespond, hq]
  rw [if_neg hfin, if_neg hmatch, if_neg hskip, if_neg hdel]

/-- Structure of a successful run of the question-building loop of
`LearningState.start`: one new question per card, at consecutive order
indices, each with a valid distractor set; nothing else changes. -/
theorem questionsLoop_spec (o : LearnOracle) :
    ∀ (cards : List Card) (st : Store) (k : Nat) (st' : Store),
      questionsLoop o st k cards = some st' →
      ∃ newQs : List Question,
        st'.questions = st.questions ++ newQs ∧
          (newQs.map fun q => q.order) = List.range' k cards.length ∧
          (∀ q ∈ newQs, goodDistractors q) ∧
          st'.cards = st.cards ∧ st'.progress = st.progress ∧
          st'.userState = st.userState ∧ st'.pendingRu = st.pendingRu := by
  intro cards
  induction cards with
  | nil =>
    intro st k st' h
    simp only [questionsLoop, Option.some_inj] at h
    subst h
    exact ⟨[], by simp, by simp, by simp, rfl, rfl, rfl, rfl⟩
  | cons c rest ih =>
    intro st k st' h
    simp only [questionsLoop] at h
    cases hadd : addQuestionForCard st o k c with
    | none => rw [hadd] at h; cases h
    | some st1 =>
      rw [hadd] at h
      obtain ⟨newQs, hq, hord, hgood, hcards, hprog, hstate, hpend⟩ :=
        ih st1 (k + 1) st' h
      simp only [addQuestionForCard, Option.map_eq_some'] at hadd
      obtain ⟨ds, hds, hst1⟩ := hadd
      obtain ⟨hdlen, hdnodup, hdne⟩ := getDistractorsForCard_spec hds
      refine ⟨⟨k, c, o.positions k, ds⟩ :: newQs, ?_, ?_, ?_, ?_, ?_, ?_, ?_⟩
      · rw [hq, ← hst1]
        simp [addQuestion]
      · simp only [List.map_cons, hord, List.length_cons]
        rw [List.range'_succ]
      · intro q hq'
        rcases List.mem_cons.mp hq' with hh | hh
        · subst hh
          exact ⟨hdlen, hdnodup, hdne⟩
        · exact hgood q hh
      · rw [hcards, ← hst1]; rfl
      · rw [hprog, ← hst1]; rfl
      · rw [hstate, ← hst1]; rfl
      · rw [hpend, ← hst1]; rfl

/-! ## Claim theorems -/

/-- C1: for a user with `N ≥ CHOICE_COUNT` cards, a terminating run of
`LearningState.start` creates exactly `N` question records with order indices
`0..N-1`, each with exactly `CHOICE_COUNT - 1` distractors whose target texts
are pairwise distinct and distinct from the question's correct answer text;
all records are committed (`r.1.cur = r.1.db`) before the first question
message, which is rendered from the committed store, is produced. -/
theorem learning_start_builds_session (s : LSession) (o : LearnOracle) (N : Nat)
    (r : LSession × OutputMessage)
    (hperm : o.shuffle.Perm s.cur.cards)
    (hN : s.cur.cards.length = N)
    (h4 : choiceCount ≤ N)
    (h : learningStart s o = some r) :
    r.1.db.questions.length = N ∧
      (r.1.db.questions.map fun q => q.order) = List.range N ∧
      (∀ q ∈ r.1.db.questions, goodDistractors q) ∧
      r.1.cur = r.1.db ∧
      ∃ q0, nextOf r.1.db.questions = some q0 ∧
        r.2 = addParagraphBefore (planLearningCountMsg N)
          ⟨selectTranslationMsg q0.answerCard.ruText, some (questionKeyboard q0)⟩ := by
  have hshuf : o.shuffle.length = N := hperm.length_eq.trans hN
  simp only [learningStart] at h
  have hcond : ¬ (getCardNumber (updateProgress (deleteAllQuestions s.cur) zeroProgress) <
      choiceCount) := by
    simp only [getCardNumber, updateProgress, deleteAllQuestions]
    simp only [hN]
    omega
  rw [if_neg hcond] at h
  cases hql : questionsLoop o (updateProgress (deleteAllQuestions s.cur) zeroProgress) 0
      o.shuffle with
  | none => rw [hql] at h; cases h
  | some cur1 =>
    rw [hql] at h
    obtain ⟨newQs, hq, hord, hgood, hcards, hprog, hstate, hpend⟩ :=
      questionsLoop_spec o _ _ _ _ hql
    simp only [updateProgress, deleteAllQuestions, List.nil_append] at hq
    have hqlen : cur1.questions.length = N := by
      have := congrArg List.length hord
      simp only [List.length_map, List.length_range'] at this
      rw [hq, this, hshuf]
    have hne : cur1.questions ≠ [] := by
      intro hnil
      rw [hnil] at hqlen
      simp only [List.length_nil] at hqlen
      simp only [choiceCount] at h4
      omega
    obtain ⟨q0, hq0⟩ : ∃ q0, nextOf cur1.questions = some q0 := by
      cases hx : nextOf cur1.questions with
      | none => exact absurd (nextOf_eq_none.mp hx) hne
      | some q0 => exact ⟨q0, rfl⟩
    have hn : getCardNumber (updateProgress (deleteAllQuestions s.cur) zeroProgress) = N := by
      simp [getCardNumber, updateProgress, deleteAllQuestions, hN]
    rw [hn] at h
    simp only [showLearningCard, commitS, hq0] at h
    injection h with h
    subst h
    refine ⟨hqlen, ?_, ?_, rfl, q0, hq0, rfl⟩
    · rw [hq, hord, hshuf, ← List.range_eq_range']
    · rw [hq]
      exact hgood

/-- Witness for C1 on the four-card sample data. -/
theorem learning_start_builds_session_witness :
    exStartRes.1.db.questions.length = 4 ∧
      (exStartRes.1.db.questions.map fun q => q.order) = List.range 4 := by
  have hr := learning_start_builds_session ⟨exStore, exStore⟩ exOracle 4 exStartRes
    (List.Perm.refl _) (by decide) (by decide) (Option.some_get _).symm
  exact ⟨hr.1, hr.2.1⟩

/-- C3: starting the learning state for a user with fewer than `CHOICE_COUNT`
cards leaves the committed user state at `MAIN_MENU`, stores zero question
records, and answers with the not-enough-cards message formatted with the
actual and required counts, prefixed to the menu message. -/
theorem learning_start_not_enough_cards (s : LSession) (o : LearnOracle)
    (hlt : s.cur.cards.length < choiceCount) :
    ∃ s', managerStart s .learning o =
        some (s',
          addParagraphBefore (noLearningCardsMsg s.cur.cards.length choiceCount)
            mainMenuStartMsg) ∧
      s'.db.userState = .mainMenu ∧ s'.db.questions = [] ∧ s'.db = s'.cur := by
  simp only [managerStart, stateStart, updateUserState, commitS, learningStart,
    startMainMenu, getCardNumber, updateProgress, deleteAllQuestions]
  rw [if_pos hlt]
  exact ⟨_, rfl, rfl, rfl, rfl⟩

/-- C2 counterexample: when a stored card's target text happens to equal the
normalized Skip command label, sending the Skip command is treated as a
correct answer: `succeeded_count` is incremented and `skipped_count` stays 0,
contradicting the claim that the Skip command increments `skipped_count` by
exactly 1. -/
theorem skip_command_counted_as_success :
    nextOf cxSkipStore.questions = some ⟨0, cxSkipCard, 0, []⟩ ∧
      (learningRespond ⟨cxSkipStore, cxSkipStore⟩ skipLabel).2.2 =
        Outcome.succeeded ∧
      (learningRespond ⟨cxSkipStore, cxSkipStore⟩ skipLabel).1.db.progress =
        some ⟨1, 0, 0⟩ := by
  refine ⟨by decide, by decide, by decide⟩

/-- C2 (amended): in `LearningState.respond` with a pending question, provided
the input is not the Finish command and the pending answer text does not
collide with the normalized Skip/Delete command labels: a correct normalized
answer deletes the question and increments `succeeded_count` by exactly 1;
other non-command text keeps the question set unchanged (the same record with
the same distractors is re-shown) and increments `failed_count` by exactly 1;
Skip deletes the question and increments `skipped_count` by exactly 1; Delete
deletes the question and removes the card from the collection, so `get_cards`
never returns it again. -/
theorem learning_respond_cases (s : LSession) (input : String) (q : Question)
    (r : LSession × OutputMessage × Outcome)
    (hr : learningRespond s input = r)
    (hq : nextOf s.cur.questions = some q)
    (hnodupq : s.cur.questions.Nodup)
    (hnodupc : s.cur.cards.Nodup)
    (hlen : q.answerCard.enText.length ≤ maxWordLength)
    (hstrip : pyStrip q.answerCard.enText = q.answerCard.enText) :
    (pyLower (pyStrip input) = q.answerCard.enText → input ≠ finishLabel →
      r.1.db.questions = s.cur.questions.erase q ∧
        q ∉ r.1.db.questions ∧
        (getProgressD r.1.db).succeededCount =
          (getProgressD s.cur).succeededCount + 1 ∧
        (getProgressD r.1.db).failedCount = (getProgressD s.cur).failedCount ∧
        (getProgressD r.1.db).skippedCount = (getProgressD s.cur).skippedCount) ∧
    (pyLower (pyStrip input) ≠ q.answerCard.enText → input ≠ skipLabel →
        input ≠ deleteLabel → input ≠ finishLabel →
      r.1.db.questions = s.cur.questions ∧
        nextOf r.1.db.questions = some q ∧
        (getProgressD r.1.db).failedCount = (getProgressD s.cur).failedCount + 1 ∧
        (getProgressD r.1.db).succeededCount =
          (getProgressD s.cur).succeededCount ∧
        (getProgressD r.1.db).skippedCount = (getProgressD s.cur).skippedCount) ∧
    (input = skipLabel → q.answerCard.enText ≠ preprocessWordMatch skipLabel →
      r.1.db.questions = s.cur.questions.erase q ∧
        q ∉ r.1.db.questions ∧
        (getProgressD r.1.db).skippedCount = (getProgressD s.cur).skippedCount + 1 ∧
        (getProgressD r.1.db).succeededCount =
          (getProgressD s.cur).succeededCount ∧
        (getProgressD r.1.db).failedCount = (getProgressD s.cur).failedCount) ∧
    (input = deleteLabel → q.answerCard.enText ≠ preprocessWordMatch deleteLabel →
      r.1.db.questions = s.cur.questions.erase q ∧
        r.1.db.cards = s.cur.cards.erase q.answerCard ∧
        q.answerCard ∉ getCards r.1.db) := by
  subst hr
  refine ⟨?_, ?_, ?_, ?_⟩
  · intro hans hfin
    have hmatch : preprocessWordMatch input = q.answerCard.enText :=
      preprocessWordMatch_eq hlen hans
    rw [learningRespond_success_eq s input q hq hfin hmatch]
    have hframe := showLearningCard_frame
      (commitS { s with cur := incSucceeded (deleteQuestion s.cur q) }) none rfl
    refine ⟨?_, ?_, ?_, ?_, ?_⟩
    · rw [hframe.1]; simp
    · rw [hframe.1]
      simp only [commitS_cur, incSucceeded_questions, deleteQuestion_questions]
      exact hnodupq.not_mem_erase
    · rw [hframe.2.1]; simp
    · rw [hframe.2.1]; simp
    · rw [hframe.2.1]; simp
  · intro hne hskip hdel hfin
    have hmatch : preprocessWordMatch input ≠ q.answerCard.enText :=
      preprocessWordMatch_ne hlen hstrip hne
    rw [learningRespond_wrong_eq s input q hq hfin hmatch hskip hdel]
    rw [showLearningCard_some]
    refine ⟨by simp, ?_, by simp [getProgressD, incFailed, updateProgress],
      by simp [getProgressD, incFailed, updateProgress],
      by simp [getProgressD, incFailed, updateProgress]⟩
    · simpa using hq
  · intro hskip hne
    have hfin : input ≠ finishLabel := by subst hskip; decide
    have hmatch : preprocessWordMatch input ≠ q.answerCard.enText := by
      subst hskip; exact fun hcon => hne hcon.symm
    rw [learningRespond_skip_eq s input q hq hfin hmatch hskip]
    have hframe := showLearningCard_frame
      (commitS { s with cur := incSkipped (deleteQuestion s.cur q) }) none rfl
    refine ⟨?_, ?_, ?_, ?_, ?_⟩
    · rw [hframe.1]; simp
    · rw [hframe.1]
      simp only [commitS_cur, incSkipped_questions, deleteQuestion_questions]
      exact hnodupq.not_mem_erase
    · rw [hframe.2.1]; simp
    · rw [hframe.2.1]; simp
    · rw [hframe.2.1]; simp
  · intro hdel hne
    have hfin : input ≠ finishLabel := by subst hdel; decide
    have hskip : input ≠ skipLabel := by subst hdel; decide
    have hmatch : preprocessWordMatch input ≠ q.answerCard.enText := by
      subst hdel; exact fun hcon => hne hcon.symm
    rw [learningRespond_delete_eq s input q hq hfin hmatch hskip hdel]
    have hframe := showLearningCard_frame
      (commitS
        { s with cur := deleteUserCard (deleteQuestion s.cur q) q.answerCard })
      none rfl
    refine ⟨?_, ?_, ?_⟩
    · rw [hframe.1]; simp
    · rw [hframe.2.2.1]; simp
    · simp only [getCards]
      rw [hframe.2.2.1]
      simp only [commitS_cur, deleteUserCard_cards, deleteQuestion_cards]
      exact hnodupc.not_mem_erase

/-- Witness for C2 on the four-card sample session (correct answer case,
with all side conditions discharged concretely). -/
theorem learning_respond_cases_witness :
    (learningRespond ⟨exRespondStore, exRespondStore⟩ " CAT ").1.db.questions =
        exRespondStore.questions.erase exQuestion ∧
      (getProgressD
        (learningRespond ⟨exRespondStore, exRespondStore⟩ " CAT ").1.db).succeededCount =
        (getProgressD exRespondStore).succeededCount + 1 := by
  have hc := learning_respond_cases ⟨exRespondStore, exRespondStore⟩ " CAT "
    exQuestion (learningRespond ⟨exRespondStore, exRespondStore⟩ " CAT ") rfl
    (by decide) (by decide) (by decide) (by decide) (by decide)
  have ha := hc.1 (by decide) (by decide)
  exact ⟨ha.1, ha.2.2.1⟩

/-- C10 counterexample: when a stored card's target text equals the
normalized Delete command label, the Delete command is handled by the
correct-answer branch, so `succeeded_count` changes and the card stays in the
collection — the counters are not all preserved. -/
theorem delete_command_changes_counters :
    (learningRespond ⟨cxDelStore, cxDelStore⟩ deleteLabel).1.db.progress =
        some ⟨1, 0, 0⟩ ∧
      (learningRespond ⟨cxDelStore, cxDelStore⟩ deleteLabel).1.db.cards =
        [cxDelCard] := by
  refine ⟨by decide, by decide⟩

/-- C10 (amended): whenever the Delete branch of `respond` actually handles
the input (the input is the Delete command and neither the answer-match nor
the Skip check fires, i.e. the answer text is not the normalized Delete
label), none of the three progress counters changes; only the question record
and the card association are removed, and the pending add-card record is
untouched. -/
theorem delete_branch_preserves_counters (s : LSession) (input : String)
    (q : Question) (r : LSession × OutputMessage × Outcome)
    (hr : learningRespond s input = r)
    (hq : nextOf s.cur.questions = some q)
    (hinput : input = deleteLabel)
    (hne : q.answerCard.enText ≠ preprocessWordMatch deleteLabel) :
    getProgressD r.1.db = getProgressD s.cur ∧
      r.1.db.questions = s.cur.questions.erase q ∧
      r.1.db.cards = s.cur.cards.erase q.answerCard ∧
      r.1.db.pendingRu = s.cur.pendingRu := by
  subst hr
  have hfin : input ≠ finishLabel := by subst hinput; decide
  have hskip : input ≠ skipLabel := by subst hinput; decide
  have hmatch : preprocessWordMatch input ≠ q.answerCard.enText := by
    subst hinput; exact fun hcon => hne hcon.symm
  rw [learningRespond_delete_eq s input q hq hfin hmatch hskip hinput]
  have hframe := showLearningCard_frame
    (commitS
      { s with cur := deleteUserCard (deleteQuestion s.cur q) q.answerCard })
    none rfl
  refine ⟨?_, ?_, ?_, ?_⟩
  · rw [hframe.2.1]; simp
  · rw [hframe.1]; simp
  · rw [hframe.2.2.1]; simp
  · rw [hframe.2.2.2]; simp

/-- Witness for C10 (amended) on the four-card sample session. -/
theorem delete_branch_preserves_counters_witness :
    getProgressD
        (learningRespond ⟨exRespondStore, exRespondStore⟩ deleteLabel).1.db =
      getProgressD exRespondStore :=
  (delete_branch_preserves_counters ⟨exRespondStore, exRespondStore⟩ deleteLabel
    exQuestion _ rfl (by decide) rfl (by decide)).1

/-- Witness for C3 on a two-card collection. -/
theorem learning_start_not_enough_cards_witness :
    ∃ s', managerStart ⟨smallStore, smallStore⟩ .learning exOracle =
        some (s',
          addParagraphBefore (noLearningCardsMsg smallStore.cards.length choiceCount)
            mainMenuStartMsg) ∧
      s'.db.userState = .mainMenu ∧ s'.db.questions = [] ∧ s'.db = s'.cur :=
  learning_start_not_enough_cards ⟨smallStore, smallStore⟩ exOracle (by decide)

/-- C5: in the add-card state with pending progress, a target word whose
stripped length exceeds the bound produces the too-long warning prefixed to
the target-word re-prompt, and leaves the committed store — in particular the
pending progress record with the collected source word — exactly as it was:
the deletion staged by `_process_second_word` is never committed. -/
theorem second_word_too_long_preserves_progress (db : Store) (input ru : String)
    (hpend : db.pendingRu = some ru)
    (hlong : maxWordLength < (pyStrip input).length) :
    (addCardTurn db input).1 = db ∧
      (addCardTurn db input).1.pendingRu = some ru ∧
      (addCardTurn db input).2 =
        addParagraphBefore wordTooLongMsg ⟨enterEnWordMsg, none⟩ := by
  have hp : preprocessUserWord input = none := by
    simp only [preprocessUserWord]
    rw [if_pos hlong]
  have heq : addCardTurn db input =
      (db, addParagraphBefore wordTooLongMsg ⟨enterEnWordMsg, none⟩) := by
    unfold addCardTurn addCardRespond
    simp only [hpend, processSecondWord, hp]
  rw [heq]
  exact ⟨rfl, hpend, rfl⟩

/-- Witness for C5 on a pending add-card store and a 70-character input. -/
theorem second_word_too_long_preserves_progress_witness :
    (addCardTurn pendingStore longInput).1 = pendingStore ∧
      (addCardTurn pendingStore longInput).1.pendingRu = some "привет" ∧
      (addCardTurn pendingStore longInput).2 =
        addParagraphBefore wordTooLongMsg ⟨enterEnWordMsg, none⟩ :=
  second_word_too_long_preserves_progress pendingStore longInput "привет"
    (by decide) (by decide)

/-- C9: in the main menu, input matching neither menu label produces no reply
and leaves the session untouched; the Add-word label enters the add-card
state (clearing stale pending progress, everything committed) and returns its
prompt; the Learn label delegates to the manager's start of the learning
state and returns that start's message. -/
theorem main_menu_respond_spec (s : LSession) (input : String) (o : LearnOracle) :
    (input ≠ learnLabel → input ≠ addCardLabel →
      mainMenuRespond s input o = some (s, none)) ∧
    (input = addCardLabel →
      ∃ s', mainMenuRespond s input o = some (s', some ⟨enterRuWordMsg, none⟩) ∧
        s'.db.userState = .addingCard ∧ s'.db.pendingRu = none ∧
        s'.db = s'.cur ∧ s'.db.cards = s.cur.cards ∧
        s'.db.questions = s.cur.questions) ∧
    (input = learnLabel →
      mainMenuRespond s input o =
        (managerStart s .learning o).map fun p => (p.1, some p.2)) := by
  refine ⟨?_, ?_, ?_⟩
  · intro h1 h2
    unfold mainMenuRespond
    rw [if_neg h1, if_neg h2]
  · intro h
    subst h
    unfold mainMenuRespond
    rw [if_neg (by decide), if_pos rfl]
    exact ⟨_, rfl, rfl, rfl, rfl, rfl, rfl⟩
  · intro h
    subst h
    unfold mainMenuRespond
    rw [if_pos rfl]

/-- Witness for C9: unrecognized input on a concrete session. -/
theorem main_menu_respond_spec_witness :
    mainMenuRespond ⟨smallStore, smallStore⟩ "привет" exOracle =
      some (⟨smallStore, smallStore⟩, none) :=
  (main_menu_respond_spec ⟨smallStore, smallStore⟩ "привет" exOracle).1
    (by decide) (by decide)

theorem countOutcome_cons (e' : Outcome) (evs : List Outcome) (e : Outcome) :
    countOutcome (e' :: evs) e =
      countOutcome evs e + (if e' = e then 1 else 0) := by
  by_cases h : e' = e
  · simp [countOutcome, List.filter_cons, h]
  · simp [countOutcome, List.filter_cons, h]

/-- Every learning turn changes each progress counter exactly by the
indicator of its outcome: the branch that ran is the increment performed. -/
theorem learningTurn_progress (db : Store) (input : String) :
    (getProgressD (learningTurn db input).1).succeededCount =
        (getProgressD db).succeededCount +
          (if (learningTurn db input).2.2 = Outcome.succeeded then 1 else 0) ∧
      (getProgressD (learningTurn db input).1).failedCount =
        (getProgressD db).failedCount +
          (if (learningTurn db input).2.2 = Outcome.failed then 1 else 0) ∧
      (getProgressD (learningTurn db input).1).skippedCount =
        (getProgressD db).skippedCount +
          (if (learningTurn db input).2.2 = Outcome.skipped then 1 else 0) := by
  cases hq : nextOf db.questions with
  | none =>
    have ht : learningTurn db input =
        ((finishLearning ⟨db, db⟩).1.db, (finishLearning ⟨db, db⟩).2,
          .finished) := by
      unfold learningTurn
      rw [learningRespond_finish_eq ⟨db, db⟩ input (Or.inl hq)]
    rw [ht]
    simp [finishLearning_eq, getProgressD]
  | some q =>
    by_cases hfin : input = finishLabel
    · have ht : learningTurn db input =
          ((finishLearning ⟨db, db⟩).1.db, (finishLearning ⟨db, db⟩).2,
            .finished) := by
        unfold learningTurn
        rw [learningRespond_finish_eq ⟨db, db⟩ input (Or.inr hfin)]
      rw [ht]
      simp [finishLearning_eq, getProgressD]
    · by_cases hm : preprocessWordMatch input = q.answerCard.enText
      · have ht : learningTurn db input =
            ((showLearningCard
                (commitS { (⟨db, db⟩ : LSession) with
                  cur := incSucceeded (deleteQuestion db q) }) none).1.db,
              addParagraphBefore
                (correctTranslationMsg q.answerCard.ruText q.answerCard.enText)
                (showLearningCard
                  (commitS { (⟨db, db⟩ : LSession) with
                    cur := incSucceeded (deleteQuestion db q) }) none).2,
              .succeeded) := by
          unfold learningTurn
          rw [learningRespond_success_eq ⟨db, db⟩ input q hq hfin hm]
        rw [ht]
        refine ⟨?_, ?_, ?_⟩ <;>
          · simp only [showLearningCard]
            split <;>
              simp [finishLearning_eq, getProgressD, commitS, incSucceeded,
                updateProgress]
      · by_cases hs : input = skipLabel
        · have ht : learningTurn db input =
              ((showLearningCard
                  (commitS { (⟨db, db⟩ : LSession) with
                    cur := incSkipped (deleteQuestion db q) }) none).1.db,
                addParagraphBefore skippedTranslationMsg
                  (showLearningCard
                    (commitS { (⟨db, db⟩ : LSession) with
                      cur := incSkipped (deleteQuestion db q) }) none).2,
                .skipped) := by
            unfold learningTurn
            rw [learningRespond_skip_eq ⟨db, db⟩ input q hq hfin hm hs]
          rw [ht]
          refine ⟨?_, ?_, ?_⟩ <;>
            · simp only [showLearningCard]
              split <;>
                simp [finishLearning_eq, getProgressD, commitS, incSkipped,
                  updateProgress]
        · by_cases hd : input = deleteLabel
          · have ht : learningTurn db input =
                ((showLearningCard
                    (commitS { (⟨db, db⟩ : LSession) with
                      cur := deleteUserCard (deleteQuestion db q) q.answerCard })
                    none).1.db,
                  addParagraphBefore
                    (deletedRuEnCardMsg q.answerCard.ruText q.answerCard.enText)
                    (showLearningCard
                      (commitS { (⟨db, db⟩ : LSession) with
                        cur := deleteUserCard (deleteQuestion db q) q.answerCard })
                      none).2,
                  .deletedCard) := by
              unfold learningTurn
              rw [learningRespond_delete_eq ⟨db, db⟩ input q hq hfin hm hs hd]
            rw [ht]
            refine ⟨?_, ?_, ?_⟩ <;>
              · simp only [showLearningCard]
                split <;>
                  simp [finishLearning_eq, getProgressD, commitS]
          · have ht : learningTurn db input =
                ((showLearningCard
                    (commitS { (⟨db, db⟩ : LSession) with cur := incFailed db })
                    (some q)).1.db,
                  addParagraphBefore wrongTranslationMsg
                    (showLearningCard
                      (commitS { (⟨db, db⟩ : LSession) with cur := incFailed db })
                      (some q)).2,
                  .failed) := by
              unfold learningTurn
              rw [learningRespond_wrong_eq ⟨db, db⟩ input q hq hfin hm hs hd]
            rw [ht]
            rw [showLearningCard_some]
            refine ⟨?_, ?_, ?_⟩ <;>
              simp [getProgressD, commitS, incFailed, updateProgress]

/-- Over any turn sequence, each progress counter equals its initial value
plus the number of turns whose branch incremented it. -/
theorem runLearning_progress :
    ∀ (inputs : List String) (db : Store),
      (getProgressD (runLearning db inputs).1).succeededCount =
          (getProgressD db).succeededCount +
            countOutcome (runLearning db inputs).2 .succeeded ∧
        (getProgressD (runLearning db inputs).1).failedCount =
          (getProgressD db).failedCount +
            countOutcome (runLearning db inputs).2 .failed ∧
        (getProgressD (runLearning db inputs).1).skippedCount =
          (getProgressD db).skippedCount +
            countOutcome (runLearning db inputs).2 .skipped := by
  intro inputs
  induction inputs with
  | nil =>
    intro db
    simp [runLearning, countOutcome]
  | cons input rest ih =>
    intro db
    obtain ⟨h1, h2, h3⟩ := learningTurn_progress db input
    obtain ⟨g1, g2, g3⟩ := ih (learningTurn db input).1
    have hrun : runLearning db (input :: rest) =
        ((runLearning (learningTurn db input).1 rest).1,
          (learningTurn db input).2.2 ::
            (runLearning (learningTurn db input).1 rest).2) := rfl
    rw [hrun]
    refine ⟨?_, ?_, ?_⟩ <;>
      simp only [countOutcome_cons] <;> omega

/-- C6: when a learning session that started from zeroed counters ends —
by the Finish command or because no question remains — the ending turn
deletes every remaining question record, returns to the main menu, and the
outbound message reports exactly the per-outcome totals accumulated by the
session's increments. -/
theorem finish_reports_running_totals (db0 : Store) (inputs : List String)
    (input2 : String) (db1 : Store) (evs : List Outcome)
    (hrun : runLearning db0 inputs = (db1, evs))
    (hzero : getProgressD db0 = zeroProgress)
    (hfin : nextOf db1.questions = none ∨ input2 = finishLabel) :
    (learningTurn db1 input2).1.questions = [] ∧
      (learningTurn db1 input2).1.userState = .mainMenu ∧
      (learningTurn db1 input2).2.1.text =
        finishedLearningMsg (countOutcome evs .succeeded)
          (countOutcome evs .skipped) (countOutcome evs .failed) ++
          "\n\n" ++ selectMainMenuMsg := by
  have ht : learningTurn db1 input2 =
      ((finishLearning ⟨db1, db1⟩).1.db, (finishLearning ⟨db1, db1⟩).2,
        .finished) := by
    unfold learningTurn
    rw [learningRespond_finish_eq ⟨db1, db1⟩ input2 hfin]
  obtain ⟨g1, g2, g3⟩ := runLearning_progress inputs db0
  rw [hrun, hzero] at g1 g2 g3
  simp only [zeroProgress] at g1 g2 g3
  have ha : (getProgressD db1).succeededCount = countOutcome evs .succeeded := by
    simpa using g1
  have hb : (getProgressD db1).failedCount = countOutcome evs .failed := by
    simpa using g2
  have hc : (getProgressD db1).skippedCount = countOutcome evs .skipped := by
    simpa using g3
  rw [ht]
  refine ⟨by simp [finishLearning_eq], by simp [finishLearning_eq], ?_⟩
  simp only [finishLearning_eq, addParagraphBefore, mainMenuStartMsg]
  simp [ha, hb, hc]

/-- Witness for C6: one correct answer, then the Finish command. -/
theorem finish_reports_running_totals_witness :
    (learningTurn (runLearning exRespondStore [" CAT "]).1 finishLabel).1.questions
        = [] ∧
      (learningTurn
        (runLearning exRespondStore [" CAT "]).1 finishLabel).1.userState =
        .mainMenu ∧
      (learningTurn (runLearning exRespondStore [" CAT "]).1 finishLabel).2.1.text =
        finishedLearningMsg
          (countOutcome (runLearning exRespondStore [" CAT "]).2 .succeeded)
          (countOutcome (runLearning exRespondStore [" CAT "]).2 .skipped)
          (countOutcome (runLearning exRespondStore [" CAT "]).2 .failed) ++
          "\n\n" ++ selectMainMenuMsg :=
  finish_reports_running_totals exRespondStore [" CAT "] finishLabel
    (runLearning exRespondStore [" CAT "]).1
    (runLearning exRespondStore [" CAT "]).2
    rfl (by decide) (Or.inr rfl)

/-- C4 counterexample: a collection of `CHOICE_COUNT` cards that all share
one target text satisfies the caller's cardinality precondition, yet no draw
stream from this collection can ever complete the distractor loop — the
claimed precondition does not ensure termination. -/
theorem card_count_insufficient_for_termination :
    choiceCount ≤ c4Store.cards.length ∧ c4Card ∈ c4Store.cards ∧
      ¬ distractorSelectionTerminates c4Store c4Card := by
  refine ⟨by decide, by decide, ?_⟩
  rintro ⟨draws, hvalid, ds, hds, -⟩
  simp only [getDistractorsForCard, Option.map_eq_some'] at hds
  obtain ⟨res, hres, -⟩ := hds
  have hstuck : distractorLoop [(c4Card.enText, c4Card)] draws = none := by
    apply distractorLoop_stuck
    · decide
    · intro oc hoc cd hcd
      have hmem := hvalid oc hoc cd hcd
      have hx : cd.enText = "x" := by
        fin_cases hmem <;> rfl
      simp [hasKey, c4Card, hx]
  rw [hstuck] at hres
  cases hres

/-- C4 (amended): if the user's collection carries at least `CHOICE_COUNT`
distinct target texts — rather than merely `CHOICE_COUNT` cards — then for
every answer card the distractor-selection loop terminates under some
achievable draw stream, producing `CHOICE_COUNT` pairwise-distinct target
texts. -/
theorem distractor_selection_terminates_of_distinct_texts (st : Store)
    (c : Card) (hc : c ∈ st.cards)
    (hdedup : choiceCount ≤ ((st.cards.map fun d => d.enText).dedup).length) :
    distractorSelectionTerminates st c := by
  have hnd : ((st.cards.map fun d => d.enText).dedup).Nodup :=
    List.nodup_dedup _
  have hmem : c.enText ∈ (st.cards.map fun d => d.enText).dedup :=
    List.mem_dedup.mpr (List.mem_map.mpr ⟨c, hc, rfl⟩)
  have herase_nd : (((st.cards.map fun d => d.enText).dedup).erase c.enText).Nodup :=
    hnd.erase _
  have hts_nd :
      ((((st.cards.map fun d => d.enText).dedup).erase c.enText).take
        (choiceCount - 1)).Nodup :=
    (List.take_sublist _ _).nodup herase_nd
  have hts_len :
      ((((st.cards.map fun d => d.enText).dedup).erase c.enText).take
        (choiceCount - 1)).length = choiceCount - 1 := by
    rw [List.length_take]
    have h1 := List.length_erase_of_mem hmem
    omega
  have hts_sub : ∀ t ∈ (((st.cards.map fun d => d.enText).dedup).erase
      c.enText).take (choiceCount - 1),
      t ∈ ((st.cards.map fun d => d.enText).dedup).erase c.enText :=
    fun t ht => List.take_subset _ _ ht
  have hts_ne : ∀ t ∈ (((st.cards.map fun d => d.enText).dedup).erase
      c.enText).take (choiceCount - 1), t ≠ c.enText := by
    intro t ht
    exact (hnd.mem_erase_iff.mp (hts_sub t ht)).1
  have hts_in_cards : ∀ t ∈ (((st.cards.map fun d => d.enText).dedup).erase
      c.enText).take (choiceCount - 1), ∃ d ∈ st.cards, d.enText = t := by
    intro t ht
    have h1 : t ∈ (st.cards.map fun d => d.enText).dedup :=
      (hnd.mem_erase_iff.mp (hts_sub t ht)).2
    obtain ⟨d, hd, hdt⟩ := List.mem_map.mp (List.mem_dedup.mp h1)
    exact ⟨d, hd, hdt⟩
  obtain ⟨ds, hds_map, hds_mem⟩ := exists_cards_of_texts _ hts_in_cards
  have hds_len : ds.length = choiceCount - 1 := by
    have := congrArg List.length hds_map
    simp only [List.length_map] at this
    rw [this, hts_len]
  have hds_pw : ds.Pairwise fun a b => a.enText ≠ b.enText := by
    have hmapnd : (ds.map fun d => d.enText).Nodup := hds_map ▸ hts_nd
    exact List.pairwise_map.mp hmapnd
  have hfresh : ∀ d ∈ ds, hasKey d.enText [(c.enText, c)] = false := by
    intro d hd
    have hdt : d.enText ∈ (((st.cards.map fun dd => dd.enText).dedup).erase
        c.enText).take (choiceCount - 1) := by
      rw [← hds_map]
      exact List.mem_map.mpr ⟨d, hd, rfl⟩
    have hne := hts_ne _ hdt
    simp only [hasKey, Bool.or_false]
    rw [beq_eq_false_iff_ne]
    exact fun hcon => hne hcon.symm
  have hlen : ([(c.enText, c)] : List (String × Card)).length + ds.length =
      choiceCount := by
    simp only [List.length_singleton, hds_len, choiceCount]
  have hloop := distractorLoop_fills ds [(c.enText, c)] hlen hfresh hds_pw
  have htexts :
      ((enumFrom 0 ds).map fun x => Distractor.mk x.1 x.2).map
        (fun d => d.card.enText) = ds.map fun d => d.enText := by
    rw [List.map_map]
    have h1 : ((fun d : Distractor => d.card.enText) ∘
        fun x : Nat × Card => Distractor.mk x.1 x.2) =
        (fun c : Card => c.enText) ∘ (fun x : Nat × Card => x.2) := rfl
    rw [h1, ← List.map_map, enumFrom_map_snd]
  refine ⟨ds.map some, ?_, (enumFrom 0 ds).map fun x => Distractor.mk x.1 x.2,
    ?_, ?_, ?_⟩
  · intro oc hoc cd hcd
    obtain ⟨d, hd, hdoc⟩ := List.mem_map.mp hoc
    have : d = cd := by
      rw [hcd] at hdoc
      exact Option.some_inj.mp hdoc
    exact this ▸ hds_mem d hd
  · simp only [getDistractorsForCard, hloop, Option.map_some']
    congr 1
    have hcons : (([(c.enText, c)] : List (String × Card)) ++
        ds.map fun d => (d.enText, d)) =
        (c.enText, c) :: ds.map fun d => (d.enText, d) := rfl
    rw [hcons, eraseKey_cons_self, List.map_map]
    have h2 : ((fun x : String × Card => x.2) ∘ fun d : Card => (d.enText, d)) =
        id := rfl
    rw [h2, List.map_id]
  · rw [List.length_map, enumFrom_length, hds_len]
  · rw [htexts, List.nodup_cons]
    refine ⟨?_, hds_map ▸ hts_nd⟩
    intro hcmem
    obtain ⟨d, hd, hdc⟩ := List.mem_map.mp hcmem
    have hdt : d.enText ∈ (((st.cards.map fun dd => dd.enText).dedup).erase
        c.enText).take (choiceCount - 1) := by
      rw [← hds_map]
      exact List.mem_map.mpr ⟨d, hd, rfl⟩
    exact hts_ne _ hdt hdc

/-- Witness for C4 (amended) on the four-distinct-text sample collection. -/
theorem distractor_selection_terminates_witness :
    distractorSelectionTerminates exStore ⟨"кот", "cat"⟩ :=
  distractor_selection_terminates_of_distinct_texts exStore ⟨"кот", "cat"⟩
    (by decide) (by decide)

namespace Rel

theorem findWord_mem {db : DB} {t : String} {l : Lang} {w : WordRow}
    (h : findWord db t l = some w) : w ∈ db.words ∧ w.text = t ∧ w.lang = l := by
  have hm := List.mem_of_find?_eq_some h
  have hp := List.find?_some h
  simp only [Bool.and_eq_true, beq_iff_eq] at hp
  exact ⟨hm, hp.1, hp.2⟩

theorem findWord_none {db : DB} {t : String} {l : Lang}
    (h : findWord db t l = none) :
    ∀ w ∈ db.words, ¬(w.text = t ∧ w.lang = l) := by
  intro w hw hcon
  have hc := List.find?_eq_none.mp h w hw
  simp [hcon.1, hcon.2] at hc

theorem addWordRow_found {db : DB} {t : String} {l : Lang} {w : WordRow}
    (h : findWord db t l = some w) : addWordRow db t l = (db, w.id) := by
  unfold addWordRow
  rw [h]

theorem addWordRow_new {db : DB} {t : String} {l : Lang}
    (h : findWord db t l = none) :
    addWordRow db t l =
      ({ db with
          words := db.words ++ [⟨db.nextWordId, t, l⟩],
          nextWordId := db.nextWordId + 1 },
        db.nextWordId) := by
  unfold addWordRow
  rw [h]

theorem addWordRow_frame (db : DB) (t : String) (l : Lang) :
    (addWordRow db t l).1.cards = db.cards ∧
      (addWordRow db t l).1.userCards = db.userCards ∧
      (addWordRow db t l).1.users = db.users := by
  cases h : findWord db t l with
  | some w => rw [addWordRow_found h]; exact ⟨rfl, rfl, rfl⟩
  | none => rw [addWordRow_new h]; exact ⟨rfl, rfl, rfl⟩

theorem addWordRow_find_self (db : DB) (t : String) (l : Lang) :
    (findWord (addWordRow db t l).1 t l).map (fun w => w.id) =
      some (addWordRow db t l).2 := by
  cases h : findWord db t l with
  | some w => rw [addWordRow_found h]; simp [h]
  | none =>
    rw [addWordRow_new h]
    have : findWord
        { db with
          words := db.words ++ [⟨db.nextWordId, t, l⟩],
          nextWordId := db.nextWordId + 1 } t l =
        some ⟨db.nextWordId, t, l⟩ := by
      unfold findWord at h ⊢
      rw [List.find?_append, h]
      simp
    rw [this]
    simp

theorem addWordRow_find_other (db : DB) (t : String) (l : Lang)
    (t' : String) (l' : Lang) (hne : l' ≠ l) :
    findWord (addWordRow db t l).1 t' l' = findWord db t' l' := by
  cases h : findWord db t l with
  | some w => rw [addWordRow_found h]
  | none =>
    rw [addWordRow_new h]
    unfold findWord
    rw [List.find?_append]
    have : (([⟨db.nextWordId, t, l⟩] : List WordRow).find? fun w =>
        w.text == t' && w.lang == l') = none := by
      simp [hne.symm]
    rw [this]
    cases db.words.find? fun w => w.text == t' && w.lang == l' <;> rfl

theorem word_filter_le_one :
    ∀ (ws : List WordRow), ((ws.map fun w => (w.text, w.lang)).Nodup) →
      ∀ (t : String) (l : Lang),
        (ws.filter fun w => w.text == t && w.lang == l).length ≤ 1 := by
  intro ws
  induction ws with
  | nil => intro _ t l; simp
  | cons w rest ih =>
    intro hnd t l
    simp only [List.map_cons, List.nodup_cons] at hnd
    by_cases hp : (w.text == t && w.lang == l) = true
    · have hz : (rest.filter fun w' => w'.text == t && w'.lang == l) = [] := by
        rw [List.filter_eq_nil_iff]
        intro w' hw' hcon
        apply hnd.1
        simp only [Bool.and_eq_true, beq_iff_eq] at hp hcon
        rw [List.mem_map]
        exact ⟨w', hw', by rw [hcon.1, hcon.2, hp.1, hp.2]⟩
      rw [List.filter_cons, if_pos hp, hz]
      simp
    · rw [List.filter_cons, if_neg hp]
      exact ih hnd.2 t l

theorem addWordRow_count_self (db : DB) (t : String) (l : Lang)
    (hnd : wordKeysNodup db) : wordKeyCount (addWordRow db t l).1 t l = 1 := by
  cases h : findWord db t l with
  | some w =>
    rw [addWordRow_found h]
    obtain ⟨hm, ht, hl⟩ := findWord_mem h
    have hle := word_filter_le_one db.words hnd t l
    have hge : 1 ≤ wordKeyCount db t l := by
      have hmem : w ∈ db.words.filter fun w' => w'.text == t && w'.lang == l :=
        List.mem_filter.mpr ⟨hm, by simp [ht, hl]⟩
      exact List.length_pos_of_mem hmem
    show wordKeyCount db t l = 1
    unfold wordKeyCount at hge hle ⊢
    omega
  | none =>
    rw [addWordRow_new h]
    unfold wordKeyCount
    simp only [List.filter_append]
    have hz : (db.words.filter fun w => w.text == t && w.lang == l) = [] := by
      rw [List.filter_eq_nil_iff]
      intro w hw hcon
      simp only [Bool.and_eq_true, beq_iff_eq] at hcon
      exact findWord_none h w hw hcon
    rw [hz]
    simp

theorem addWordRow_count_other (db : DB) (t : String) (l : Lang)
    (t' : String) (l' : Lang) (hne : l' ≠ l) :
    wordKeyCount (addWordRow db t l).1 t' l' = wordKeyCount db t' l' := by
  cases h : findWord db t l with
  | some w => rw [addWordRow_found h]
  | none =>
    rw [addWordRow_new h]
    unfold wordKeyCount
    simp only [List.filter_append]
    have hz : (([⟨db.nextWordId, t, l⟩] : List WordRow).filter fun w =>
        w.text == t' && w.lang == l') = [] := by
      simp [hne.symm]
    rw [hz]
    simp

theorem addWordRow_nodup (db : DB) (t : String) (l : Lang)
    (hnd : wordKeysNodup db) : wordKeysNodup (addWordRow db t l).1 := by
  cases h : findWord db t l with
  | some w => rw [addWordRow_found h]; exact hnd
  | none =>
    rw [addWordRow_new h]
    unfold wordKeysNodup at hnd ⊢
    simp only [List.map_append, List.map_cons, List.map_nil]
    rw [List.nodup_append]
    refine ⟨hnd, List.nodup_singleton _, ?_⟩
    intro p hp hq
    simp only [List.mem_singleton] at hq
    obtain ⟨w, hw, hwp⟩ := List.mem_map.mp hp
    subst hq
    have := findWord_none h w hw
    exact this ⟨congrArg Prod.fst hwp, congrArg Prod.snd hwp⟩

theorem findCard_mem {db : DB} {a b : Nat} {c : CardRow}
    (h : findCard db a b = some c) :
    c ∈ db.cards ∧ c.ruWordId = a ∧ c.enWordId = b := by
  have hm := List.mem_of_find?_eq_some h
  have hp := List.find?_some h
  simp only [Bool.and_eq_true, beq_iff_eq] at hp
  exact ⟨hm, hp.1, hp.2⟩

theorem findCard_none {db : DB} {a b : Nat} (h : findCard db a b = none) :
    ∀ c ∈ db.cards, ¬(c.ruWordId = a ∧ c.enWordId = b) := by
  intro c hc hcon
  have hx := List.find?_eq_none.mp h c hc
  simp [hcon.1, hcon.2] at hx

theorem addCardRow_found {db : DB} {a b : Nat} {c : CardRow}
    (h : findCard db a b = some c) : addCardRow db a b = (db, c.id) := by
  unfold addCardRow
  rw [h]

theorem addCardRow_new {db : DB} {a b : Nat} (h : findCard db a b = none) :
    addCardRow db a b =
      ({ db with
          cards := db.cards ++ [⟨db.nextCardId, a, b⟩],
          nextCardId := db.nextCardId + 1 },
        db.nextCardId) := by
  unfold addCardRow
  rw [h]

theorem addCardRow_frame (db : DB) (a b : Nat) :
    (addCardRow db a b).1.words = db.words ∧
      (addCardRow db a b).1.userCards = db.userCards ∧
      (addCardRow db a b).1.users = db.users := by
  cases h : findCard db a b with
  | some c => rw [addCardRow_found h]; exact ⟨rfl, rfl, rfl⟩
  | none => rw [addCardRow_new h]; exact ⟨rfl, rfl, rfl⟩

theorem addCardRow_find_self (db : DB) (a b : Nat) :
    (findCard (addCardRow db a b).1 a b).map (fun c => c.id) =
      some (addCardRow db a b).2 := by
  cases h : findCard db a b with
  | some c => rw [addCardRow_found h]; simp [h]
  | none =>
    rw [addCardRow_new h]
    have : findCard
        { db with
          cards := db.cards ++ [⟨db.nextCardId, a, b⟩],
          nextCardId := db.nextCardId + 1 } a b =
        some ⟨db.nextCardId, a, b⟩ := by
      unfold findCard at h ⊢
      rw [List.find?_append, h]
      simp
    rw [this]
    simp

theorem card_filter_le_one :
    ∀ (cs : List CardRow), ((cs.map fun c => (c.ruWordId, c.enWordId)).Nodup) →
      ∀ a b : Nat,
        (cs.filter fun c => c.ruWordId == a && c.enWordId == b).length ≤ 1 := by
  intro cs
  induction cs with
  | nil => intro _ a b; simp
  | cons c rest ih =>
    intro hnd a b
    simp only [List.map_cons, List.nodup_cons] at hnd
    by_cases hp : (c.ruWordId == a && c.enWordId == b) = true
    · have hz : (rest.filter fun c' => c'.ruWordId == a && c'.enWordId == b) = [] := by
        rw [List.filter_eq_nil_iff]
        intro c' hc' hcon
        apply hnd.1
        simp only [Bool.and_eq_true, beq_iff_eq] at hp hcon
        rw [List.mem_map]
        exact ⟨c', hc', by rw [hcon.1, hcon.2, hp.1, hp.2]⟩
      rw [List.filter_cons, if_pos hp, hz]
      simp
    · rw [List.filter_cons, if_neg hp]
      exact ih hnd.2 a b

theorem addCardRow_count_self (db : DB) (a b : Nat)
    (hnd : cardKeysNodup db) : cardKeyCount (addCardRow db a b).1 a b = 1 := by
  cases h : findCard db a b with
  | some c =>
    rw [addCardRow_found h]
    obtain ⟨hm, ha, hb⟩ := findCard_mem h
    have hle := card_filter_le_one db.cards hnd a b
    have hge : 1 ≤ cardKeyCount db a b := by
      have hmem : c ∈ db.cards.filter fun c' =>
          c'.ruWordId == a && c'.enWordId == b :=
        List.mem_filter.mpr ⟨hm, by simp [ha, hb]⟩
      exact List.length_pos_of_mem hmem
    show cardKeyCount db a b = 1
    unfold cardKeyCount at hge hle ⊢
    omega
  | none =>
    rw [addCardRow_new h]
    unfold cardKeyCount
    simp only [List.filter_append]
    have hz : (db.cards.filter fun c => c.ruWordId == a && c.enWordId == b) = [] := by
      rw [List.filter_eq_nil_iff]
      intro c hc hcon
      simp only [Bool.and_eq_true, beq_iff_eq] at hcon
      exact findCard_none h c hc hcon
    rw [hz]
    simp

theorem addUserCard_words (db : DB) (u cid : Nat) :
    (addUserCard db u cid).words = db.words := rfl

theorem addUserCard_cards (db : DB) (u cid : Nat) :
    (addUserCard db u cid).cards = db.cards := rfl

theorem addUserCard_users (db : DB) (u cid : Nat) :
    (addUserCard db u cid).users = db.users := rfl

theorem addUserCard_userCards (db : DB) (u cid : Nat) :
    (addUserCard db u cid).userCards = db.userCards ++ [(u, cid)] := rfl

theorem findWord_words_congr {db db' : DB} (h : db.words = db'.words)
    (t : String) (l : Lang) : findWord db t l = findWord db' t l := by
  unfold findWord
  rw [h]

theorem findCard_cards_congr {db db' : DB} (h : db.cards = db'.cards)
    (a b : Nat) : findCard db a b = findCard db' a b := by
  unfold findCard
  rw [h]

theorem wordKeyCount_congr {db db' : DB} (h : db.words = db'.words)
    (t : String) (l : Lang) : wordKeyCount db t l = wordKeyCount db' t l := by
  unfold wordKeyCount
  rw [h]

theorem cardKeyCount_congr {db db' : DB} (h : db.cards = db'.cards)
    (a b : Nat) : cardKeyCount db a b = cardKeyCount db' a b := by
  unfold cardKeyCount
  rw [h]

theorem cardKeysNodup_congr {db db' : DB} (h : db.cards = db'.cards)
    (hn : cardKeysNodup db) : cardKeysNodup db' := by
  unfold cardKeysNodup at hn ⊢
  rw [← h]
  exact hn

/-- C7: two users completing the add-card flow with word pairs that
normalize to the same texts leave exactly one word row per (text, language)
and exactly one card row for the pair; the second submission changes neither
the word nor the card table and only appends the card to the second user's
collection. -/
theorem add_card_flow_dedup (db : DB) (u1 u2 : Nat)
    (ru1 en1 ru2 en2 rt et : String) (db1 db2 : DB)
    (hw : wordKeysNodup db) (hcd : cardKeysNodup db)
    (hru1 : preprocessUserWord ru1 = some rt)
    (hen1 : preprocessUserWord en1 = some et)
    (hru2 : preprocessUserWord ru2 = some rt)
    (hen2 : preprocessUserWord en2 = some et)
    (h1 : addCardFlow db u1 ru1 en1 = some db1)
    (h2 : addCardFlow db1 u2 ru2 en2 = some db2) :
    db2.words = db1.words ∧ db2.cards = db1.cards ∧
      wordKeyCount db2 rt .ru = 1 ∧ wordKeyCount db2 et .en = 1 ∧
      ∃ ruId enId cid,
        (findWord db2 rt .ru).map (fun w => w.id) = some ruId ∧
        (findWord db2 et .en).map (fun w => w.id) = some enId ∧
        cardKeyCount db2 ruId enId = 1 ∧
        db2.userCards = db1.userCards ++ [(u2, cid)] := by
  have hrune : Lang.ru ≠ Lang.en := by decide
  simp only [addCardFlow, cmAddCard, hru1, hen1, Option.map_some',
    Option.some_inj] at h1
  have hwA : wordKeysNodup (addWordRow db rt .ru).1 :=
    addWordRow_nodup db rt .ru hw
  have hcardsAB :
      ((addWordRow (addWordRow db rt .ru).1 et .en).1).cards = db.cards := by
    rw [(addWordRow_frame (addWordRow db rt .ru).1 et .en).1,
      (addWordRow_frame db rt .ru).1]
  have hdb1w : db1.words =
      (addWordRow (addWordRow db rt .ru).1 et .en).1.words := by
    rw [← h1, addUserCard_words,
      (addCardRow_frame (addWordRow (addWordRow db rt .ru).1 et .en).1
        (addWordRow db rt .ru).2
        (addWordRow (addWordRow db rt .ru).1 et .en).2).1]
  have hdb1c : db1.cards =
      (addCardRow (addWordRow (addWordRow db rt .ru).1 et .en).1
        (addWordRow db rt .ru).2
        (addWordRow (addWordRow db rt .ru).1 et .en).2).1.cards := by
    rw [← h1, addUserCard_cards]
  have hF1 : (findWord db1 rt .ru).map (fun w => w.id) =
      some (addWordRow db rt .ru).2 := by
    rw [findWord_words_congr hdb1w,
      addWordRow_find_other (addWordRow db rt .ru).1 et .en rt .ru hrune]
    exact addWordRow_find_self db rt .ru
  have hF2 : (findWord db1 et .en).map (fun w => w.id) =
      some (addWordRow (addWordRow db rt .ru).1 et .en).2 := by
    rw [findWord_words_congr hdb1w]
    exact addWordRow_find_self (addWordRow db rt .ru).1 et .en
  have hF3 : (findCard db1 (addWordRow db rt .ru).2
      (addWordRow (addWordRow db rt .ru).1 et .en).2).map (fun c => c.id) =
      some (addCardRow (addWordRow (addWordRow db rt .ru).1 et .en).1
        (addWordRow db rt .ru).2
        (addWordRow (addWordRow db rt .ru).1 et .en).2).2 := by
    rw [findCard_cards_congr hdb1c]
    exact addCardRow_find_self _ _ _
  have hF4 : wordKeyCount db1 rt .ru = 1 := by
    rw [wordKeyCount_congr hdb1w,
      addWordRow_count_other (addWordRow db rt .ru).1 et .en rt .ru hrune]
    exact addWordRow_count_self db rt .ru hw
  have hF5 : wordKeyCount db1 et .en = 1 := by
    rw [wordKeyCount_congr hdb1w]
    exact addWordRow_count_self (addWordRow db rt .ru).1 et .en hwA
  obtain ⟨w1, hw1, hw1id⟩ := Option.map_eq_some'.mp hF1
  obtain ⟨w2, hw2, hw2id⟩ := Option.map_eq_some'.mp hF2
  obtain ⟨c1, hc1, hc1id⟩ := Option.map_eq_some'.mp hF3
  have haw1 : addWordRow db1 rt .ru = (db1, (addWordRow db rt .ru).2) := by
    rw [addWordRow_found hw1, hw1id]
  have haw2 : addWordRow db1 et .en =
      (db1, (addWordRow (addWordRow db rt .ru).1 et .en).2) := by
    rw [addWordRow_found hw2, hw2id]
  have hac : addCardRow db1 (addWordRow db rt .ru).2
      (addWordRow (addWordRow db rt .ru).1 et .en).2 =
      (db1, (addCardRow (addWordRow (addWordRow db rt .ru).1 et .en).1
        (addWordRow db rt .ru).2
        (addWordRow (addWordRow db rt .ru).1 et .en).2).2) := by
    rw [addCardRow_found hc1, hc1id]
  simp only [addCardFlow, cmAddCard, hru2, hen2, haw1, haw2, hac,
    Option.map_some', Option.some_inj] at h2
  have hw21 : db2.words = db1.words := by rw [← h2, addUserCard_words]
  have hc21 : db2.cards = db1.cards := by rw [← h2, addUserCard_cards]
  refine ⟨hw21, hc21, ?_, ?_, (addWordRow db rt .ru).2,
    (addWordRow (addWordRow db rt .ru).1 et .en).2,
    (addCardRow (addWordRow (addWordRow db rt .ru).1 et .en).1
      (addWordRow db rt .ru).2
      (addWordRow (addWordRow db rt .ru).1 et .en).2).2, ?_, ?_, ?_, ?_⟩
  · rw [wordKeyCount_congr hw21]
    exact hF4
  · rw [wordKeyCount_congr hw21]
    exact hF5
  · rw [findWord_words_congr hw21]
    exact hF1
  · rw [findWord_words_congr hw21]
    exact hF2
  · rw [cardKeyCount_congr hc21, cardKeyCount_congr hdb1c]
    exact addCardRow_count_self _ _ _ (cardKeysNodup_congr hcardsAB.symm hcd)
  · rw [← h2, addUserCard_userCards]

/-- Witness for C7: two users adding ("Привет", "Hello") and
(" привет ", "HELLO") to an empty store. -/
theorem add_card_flow_dedup_witness :
    c7db2.words = c7db1.words ∧ c7db2.cards = c7db1.cards ∧
      wordKeyCount c7db2 "привет" .ru = 1 ∧
      wordKeyCount c7db2 "hello" .en = 1 ∧
      ∃ ruId enId cid,
        (findWord c7db2 "привет" .ru).map (fun w => w.id) = some ruId ∧
        (findWord c7db2 "hello" .en).map (fun w => w.id) = some enId ∧
        cardKeyCount c7db2 ruId enId = 1 ∧
        c7db2.userCards = c7db1.userCards ++ [(2, cid)] :=
  add_card_flow_dedup emptyDB 1 2 "Привет" "Hello" " привет " "HELLO"
    "привет" "hello" c7db1 c7db2 (by unfold wordKeysNodup; decide)
    (by unfold cardKeysNodup; decide) (by decide)
    (by decide) (by decide) (by decide) (Option.some_get _).symm
    (Option.some_get _).symm

theorem cmAddCard_users {db : DB} {r e : String} {res : DB × Nat}
    (h : cmAddCard db r e = some res) : res.1.users = db.users := by
  cases hr : preprocessUserWord r with
  | none => simp [cmAddCard, hr] at h
  | some rt =>
    cases he : preprocessUserWord e with
    | none => simp [cmAddCard, hr, he] at h
    | some et =>
      simp only [cmAddCard, hr, he, Option.some_inj] at h
      rw [← h,
        (addCardRow_frame (addWordRow (addWordRow db rt .ru).1 et .en).1
          (addWordRow db rt .ru).2
          (addWordRow (addWordRow db rt .ru).1 et .en).2).2.2,
        (addWordRow_frame (addWordRow db rt .ru).1 et .en).2.2,
        (addWordRow_frame db rt .ru).2.2]

theorem addCardFlow_users {db : DB} {u : Nat} {r e : String} {db' : DB}
    (h : addCardFlow db u r e = some db') : db'.users = db.users := by
  unfold addCardFlow at h
  cases hcm : cmAddCard db r e with
  | none => rw [hcm] at h; cases h
  | some res =>
    rw [hcm] at h
    simp only [Option.map_some', Option.some_inj] at h
    rw [← h, addUserCard_users]
    exact cmAddCard_users hcm

theorem addDefaultCards_users {uid : Nat} :
    ∀ (ps : List (String × String)) (db db' : DB),
      addDefaultCards uid db ps = some db' → db'.users = db.users := by
  intro ps
  induction ps with
  | nil =>
    intro db db' h
    simp only [addDefaultCards, Option.some_inj] at h
    rw [← h]
  | cons p rest ih =>
    intro db db' h
    simp only [addDefaultCards] at h
    cases hf : addCardFlow db uid p.1 p.2 with
    | none => rw [hf] at h; cases h
    | some dbm =>
      rw [hf] at h
      rw [ih dbm db' h, addCardFlow_users hf]

theorem filter_map_length {α : Type} (g : α → α) (p : α → Bool) (l : List α)
    (h : ∀ r, p (g r) = p r) :
    ((l.map g).filter p).length = (l.filter p).length := by
  induction l with
  | nil => rfl
  | cons a rest ih =>
    simp only [List.map_cons, List.filter_cons, h a]
    by_cases hp : p a = true
    · rw [if_pos hp, if_pos hp]
      simp only [List.length_cons, ih]
    · rw [if_neg hp, if_neg hp]
      exact ih

theorem updateUserRow_frame (db : DB) (u' : UserRow) :
    (updateUserRow db u').userCards = db.userCards ∧
      (updateUserRow db u').words = db.words ∧
      (updateUserRow db u').cards = db.cards := ⟨rfl, rfl, rfl⟩

theorem setUserStateRow_frame (db : DB) (uid : Nat) (st : UserState) :
    (setUserStateRow db uid st).userCards = db.userCards ∧
      (setUserStateRow db uid st).words = db.words ∧
      (setUserStateRow db uid st).cards = db.cards := ⟨rfl, rfl, rfl⟩

theorem updateUserRow_length (db : DB) (u' : UserRow) :
    (updateUserRow db u').users.length = db.users.length := by
  show (db.users.map _).length = db.users.length
  rw [List.length_map]

theorem setUserStateRow_length (db : DB) (uid : Nat) (st : UserState) :
    (setUserStateRow db uid st).users.length = db.users.length := by
  show (db.users.map _).length = db.users.length
  rw [List.length_map]

theorem updateUserRow_filter_id (db : DB) (u' : UserRow) (uid : Nat)
    (hid : u'.id = uid) :
    ((updateUserRow db u').users.filter fun r => r.id == uid).length =
      (db.users.filter fun r => r.id == uid).length := by
  show ((db.users.map fun r => if r.id == u'.id then u' else r).filter
    fun r => r.id == uid).length = _
  apply filter_map_length
  intro r
  by_cases hc : (r.id == u'.id) = true
  · rw [if_pos hc]
    have hr : r.id = u'.id := by
      have := hc
      simpa using this
    rw [hr]
  · rw [if_neg hc]

theorem setUserStateRow_filter_id (db : DB) (uid uid' : Nat) (st : UserState) :
    ((setUserStateRow db uid st).users.filter fun r => r.id == uid').length =
      (db.users.filter fun r => r.id == uid').length := by
  show ((db.users.map fun r =>
    if r.id == uid then { r with state := st } else r).filter
    fun r => r.id == uid').length = _
  apply filter_map_length
  intro r
  by_cases hc : (r.id == uid) = true
  · rw [if_pos hc]
  · rw [if_neg hc]

/-- C8: `/start` bootstrap is idempotent per user identity.  After a first
`start_user` call that created the user row and seeded the default cards, a
second call for the same identity creates no second user row (the user count
and the one-row-per-id property are preserved) and performs no re-seeding:
the word table, card table and the user's card collection are unchanged. -/
theorem start_user_idempotent (defaults : List (String × String)) (db : DB)
    (u : InputUser) (db1 db2 : DB)
    (hnew : getUserRow db u.id = none)
    (h1 : startUser defaults db u = some db1)
    (h2 : startUser defaults db1 u = some db2) :
    db2.users.length = db1.users.length ∧
      (db2.users.filter fun r => r.id == u.id).length = 1 ∧
      db2.userCards = db1.userCards ∧ db2.words = db1.words ∧
      db2.cards = db1.cards := by
  unfold startUser preprocessUser at h1
  rw [hnew] at h1
  simp only [Option.map_map, Option.map_eq_some', Function.comp] at h1
  obtain ⟨dbS, hseed, hdb1⟩ := h1
  replace hdb1 : setUserStateRow dbS u.id .mainMenu = db1 := hdb1
  have husersS : dbS.users = db.users ++
      [⟨u.id, u.username, u.firstName, u.lastName, .newUser⟩] :=
    addDefaultCards_users defaults _ dbS hseed
  have hcount0 : (db.users.filter fun r => r.id == u.id) = [] := by
    rw [List.filter_eq_nil_iff]
    intro r hr hcon
    exact List.find?_eq_none.mp hnew r hr hcon
  have hcount1 : (db1.users.filter fun r => r.id == u.id).length = 1 := by
    rw [← hdb1, setUserStateRow_filter_id, husersS, List.filter_append,
      hcount0, List.nil_append]
    simp
  have hex : ∃ ex, getUserRow db1 u.id = some ex := by
    cases hg : getUserRow db1 u.id with
    | some ex => exact ⟨ex, rfl⟩
    | none =>
      exfalso
      have hnil : (db1.users.filter fun r => r.id == u.id) = [] := by
        rw [List.filter_eq_nil_iff]
        intro r hr hcon
        exact List.find?_eq_none.mp hg r hr hcon
      rw [hnil] at hcount1
      simp at hcount1
  obtain ⟨ex, hexeq⟩ := hex
  unfold startUser preprocessUser at h2
  rw [hexeq] at h2
  simp only [Option.map_some', Option.some_inj] at h2
  replace h2 : setUserStateRow (updateUserRow db1
      ⟨u.id, u.username, u.firstName, u.lastName, ex.state⟩) u.id .mainMenu =
      db2 := h2
  refine ⟨?_, ?_, ?_, ?_, ?_⟩
  · rw [← h2, setUserStateRow_length, updateUserRow_length]
  · rw [← h2, setUserStateRow_filter_id,
      updateUserRow_filter_id db1
        ⟨u.id, u.username, u.firstName, u.lastName, ex.state⟩ u.id rfl]
    exact hcount1
  · rw [← h2, (setUserStateRow_frame _ _ _).1, (updateUserRow_frame _ _).1]
  · rw [← h2, (setUserStateRow_frame _ _ _).2.1, (updateUserRow_frame _ _).2.1]
  · rw [← h2, (setUserStateRow_frame _ _ _).2.2, (updateUserRow_frame _ _).2.2]

/-- Witness for C8: two `/start` calls of the sample user on an empty
store. -/
theorem start_user_idempotent_witness :
    c8db2.users.length = c8db1.users.length ∧
      (c8db2.users.filter fun r => r.id == exUser.id).length = 1 ∧
      c8db2.userCards = c8db1.userCards ∧ c8db2.words = c8db1.words ∧
      c8db2.cards = c8db1.cards :=
  start_user_idempotent exDefaults emptyDB exUser c8db1 c8db2 (by decide)
    (Option.some_get _).symm (Option.some_get _).symm

end Rel

end EnglishBot
